import Mathlib

/-!
Verification of the FastPeopleSearch enrichment crawler
(`src/scraping/fps_scraper_edge.py` and `src/scraping/fps_scraper_chrome.py`).

The Python functions are shallowly embedded as executable Lean definitions.
Strings are modelled as Lean `String`s (lists of characters); Python
`None`-able parameters become `Option String`.  Character classes from the
Python `re` module (`\s`, `\d`, `[A-Za-z]`) are modelled over ASCII, which is
the alphabet all inputs of interest use.
-/

/-! ## Python string primitives -/

/-- The characters Python `str.strip()` removes (ASCII whitespace,
matching the `\s` class of the `re` module on ASCII text). -/
def isPySpace (c : Char) : Bool :=
  c = ' ' || c = '\t' || c = '\n' || c = '\r' || c = '\x0b' || c = '\x0c'

/-- ASCII letter test, modelling the regex class `[A-Za-z]`. -/
def isAsciiLetter (c : Char) : Bool :=
  ('A' ≤ c && c ≤ 'Z') || ('a' ≤ c && c ≤ 'z')

/-- ASCII digit test, modelling the regex class `\d`. -/
def isAsciiDigit (c : Char) : Bool :=
  '0' ≤ c && c ≤ '9'

/-- Python word character, the regex class `\w` (used by `\b` boundaries). -/
def isWordChar (c : Char) : Bool :=
  isAsciiLetter c || isAsciiDigit c || c = '_'

/-- `str.strip()` on a character list: drop whitespace from both ends. -/
def pyStripList (cs : List Char) : List Char :=
  ((cs.dropWhile isPySpace).reverse.dropWhile isPySpace).reverse

/-- Python `str.strip()`. -/
def pyStrip (s : String) : String :=
  ⟨pyStripList s.toList⟩

/-- Python `str.lower()` (ASCII case folding). -/
def pyLower (s : String) : String :=
  ⟨s.toList.map Char.toLower⟩

/-- Does `sub` occur as a contiguous run inside `hay`? -/
def listContainsSub (sub : List Char) : List Char → Bool
  | [] => sub.isEmpty
  | c :: cs => sub.isPrefixOf (c :: cs) || listContainsSub sub cs

/-- Python substring containment `sub in hay`. -/
def pyContains (hay sub : String) : Bool :=
  listContainsSub sub.toList hay.toList

/-! ## `urllib.parse.quote_plus` -/

/-- Uppercase hexadecimal digit for a value below 16. -/
def hexDigit (n : Nat) : Char :=
  if n < 10 then Char.ofNat (48 + n) else Char.ofNat (55 + n)

/-- UTF-8 bytes of one character (as used by `quote_plus` for non-safe
characters). -/
def utf8Bytes (c : Char) : List Nat :=
  let n := c.toNat
  if n < 128 then [n]
  else if n < 2048 then [192 + n / 64, 128 + n % 64]
  else if n < 65536 then [224 + n / 4096, 128 + n / 64 % 64, 128 + n % 64]
  else [240 + n / 262144, 128 + n / 4096 % 64, 128 + n / 64 % 64, 128 + n % 64]

/-- Characters `quote_plus` passes through unencoded. -/
def quotePlusSafe (c : Char) : Bool :=
  isAsciiLetter c || isAsciiDigit c || c = '_' || c = '.' || c = '-' || c = '~'

/-- Encoding of one character under `quote_plus`. -/
def quotePlusChar (c : Char) : List Char :=
  if quotePlusSafe c then [c]
  else if c = ' ' then ['+']
  else (utf8Bytes c).flatMap (fun b => ['%', hexDigit (b / 16), hexDigit (b % 16)])

/-- `urllib.parse.quote_plus`. -/
def quote_plus (s : String) : String :=
  ⟨s.toList.flatMap quotePlusChar⟩

/-! ## `to_city_state_slug` (identical in both scraper files)

The Python function searches `addr.strip()` for the pattern
`,\s*([^,]+),\s*([A-Z]{2})(?:,\s*\d{5})?$` (case-insensitively) and, on a
match, returns `city-ST` where `city` is group 1 with whitespace runs
collapsed to hyphens after stripping, and `ST` is group 2 uppercased. -/

/-- Collapse each maximal whitespace run to a single hyphen
(`re.sub(r"\s+", "-", s)`); the flag records whether the previous
character was part of a whitespace run already replaced. -/
def collapseWs : Bool → List Char → List Char
  | _, [] => []
  | prevWs, c :: cs =>
    if isPySpace c then
      if prevWs then collapseWs true cs else '-' :: collapseWs true cs
    else c :: collapseWs false cs

/-- Try to match `,\s*([^,]+),\s*([A-Z]{2})(?:,\s*\d{5})?$` (with `re.I`)
against exactly the given suffix, i.e. the match must extend to the end.
Returns the span between the first two commas (whose whitespace-stripped
form equals group 1 stripped) and the two state letters.  The optional
ZIP group is matched greedily, exactly as the regex engine does. -/
def slugMatchAt (cs : List Char) : Option (List Char × List Char) :=
  match cs with
  | ',' :: rest =>
    let span := rest.takeWhile (fun c => c ≠ ',')
    let rest2 := rest.dropWhile (fun c => c ≠ ',')
    if span.isEmpty then none
    else
      match rest2 with
      | ',' :: rest3 =>
        let rest4 := rest3.dropWhile isPySpace
        match rest4 with
        | a :: b :: rest5 =>
          if isAsciiLetter a && isAsciiLetter b then
            if rest5.isEmpty then some (span, [a, b])
            else
              match rest5 with
              | ',' :: r6 =>
                let r7 := r6.dropWhile isPySpace
                if r7.length = 5 && r7.all isAsciiDigit then some (span, [a, b])
                else none
              | _ => none
          else none
        | _ => none
      | _ => none
  | _ => none

/-- `re.search` of the anchored pattern: try every start position from the
left and keep the leftmost successful match. -/
def slugSearch : List Char → Option (List Char × List Char)
  | [] => none
  | c :: cs =>
    match slugMatchAt (c :: cs) with
    | some r => some r
    | none => slugSearch cs

/-- `to_city_state_slug` from the scrapers (the `isinstance` guard is
reflected by the caller passing `Option String`). -/
def to_city_state_slug (addr : String) : Option String :=
  match slugSearch (pyStripList addr.toList) with
  | none => none
  | some (span, st) =>
    some ⟨collapseWs false (pyStripList span) ++ '-' :: st.map Char.toUpper⟩

/-! ## `build_fps_url` (identical in both scraper files) -/

/-- Name sanitization from `build_fps_url`:
`re.sub(r"[^A-Za-z\- ]", "", s).strip().replace(" ", "-")`. -/
def sanitize_name (s : String) : String :=
  ⟨(pyStripList (s.toList.filter (fun c => isAsciiLetter c || c = '-' || c = ' '))).map
    (fun c => if c = ' ' then '-' else c)⟩

/-- The location component of the URL (`where` in the Python source):
a non-blank ZIP string contributes its first five stripped characters;
otherwise the city-state slug of the address is used, defaulting to the
empty string. -/
def fps_location (address zip_code : Option String) : String :=
  let whereOpt : Option String :=
    match zip_code with
    | some z =>
      if pyStrip z ≠ "" then some ⟨(pyStripList z.toList).take 5⟩
      else to_city_state_slug (address.getD "")
    | none => to_city_state_slug (address.getD "")
  whereOpt.getD ""

/-- `build_fps_url` from the scrapers. -/
def build_fps_url (first last address zip_code : Option String) : String :=
  let fn := sanitize_name (first.getD "")
  let ln := sanitize_name (last.getD "")
  "https://www.fastpeoplesearch.com/name/" ++ quote_plus fn ++ "-" ++ quote_plus ln
    ++ "_" ++ quote_plus (fps_location address zip_code)

/-- The name segment described by the specification: characters other than
letters, hyphens and spaces are removed, outer spaces are trimmed, and the
remaining (internal) spaces become hyphens. -/
def spec_sanitized_name (s : String) : String :=
  ⟨(pyStripList (s.toList.filter (fun c => isAsciiLetter c || c = '-' || c = ' '))).map
    (fun c => if c = ' ' then '-' else c)⟩

/-- Characters allowed in a syntactically valid URL (RFC 3986 unreserved,
reserved and percent characters). -/
def isUrlChar (c : Char) : Bool :=
  isAsciiLetter c || isAsciiDigit c ||
    c = '-' || c = '.' || c = '_' || c = '~' || c = ':' || c = '/' || c = '?' ||
    c = '#' || c = '[' || c = ']' || c = '@' || c = '!' || c = '$' || c = '&' ||
    c = '\x27' || c = '(' || c = ')' || c = '*' || c = '+' || c = ',' || c = ';' ||
    c = '=' || c = '%'

/-- A minimal well-formedness check for an https URL: the scheme prefix is
present and every character is a legal URL character. -/
def is_wellformed_https_url (u : String) : Bool :=
  "https://".toList.isPrefixOf u.toList && u.toList.all isUrlChar

/-- The part of a string following its final underscore
(the location segment of a built URL). -/
def afterLastUnderscore (s : String) : String :=
  ⟨(s.toList.reverse.takeWhile (fun c => c ≠ '_')).reverse⟩

/-! ## Gate Monitor: challenge / block classification

`_CF_SIGNAL_STRINGS` and `is_cloudflare_challenge` are identical in both
scraper files; `looks_blocked` below is the edge variant (the chrome variant
adds the trigger "just a moment", which is already a challenge signal). -/

/-- `_CF_SIGNAL_STRINGS`. -/
def cfSignalStrings : List String :=
  ["checking your browser", "please wait while we check your browser",
   "verifying you are human", "just a moment",
   "cloudflare", "cf-challenge", "turnstile", "captcha"]

/-- `is_cloudflare_challenge`. -/
def is_cloudflare_challenge (html : String) : Bool :=
  cfSignalStrings.any (fun s => pyContains (pyLower html) s)

/-- `looks_blocked` (edge variant). -/
def looks_blocked (html : String) : Bool :=
  (["access denied", "unusual traffic", "are you a human",
    "verify you are human", "security check", "please enable cookies"].any
      (fun t => pyContains (pyLower html) t))
  || is_cloudflare_challenge html

/-! ## A document model for BeautifulSoup

`BeautifulSoup(html, "html.parser")` is modelled by passing, alongside the
raw HTML string, the parsed document: a forest of element/text nodes.  The
soup operations the scrapers use (`select`, `find`, `find_all`, `find_next`,
`get_text`, `.text`, attribute access) are implemented over this forest;
document order is preorder. -/

inductive HtmlNode where
  | elem (tag : String) (attrs : List (String × String)) (children : List HtmlNode)
  | txt (s : String)

mutual

/-- All nodes of a subtree in document order (the node itself first,
then its descendants, depth-first). -/
def HtmlNode.preorder : HtmlNode → List HtmlNode
  | .txt s => [.txt s]
  | .elem t a cs => .elem t a cs :: preorderList cs

/-- All nodes of a forest in document order. -/
def preorderList : List HtmlNode → List HtmlNode
  | [] => []
  | n :: ns => n.preorder ++ preorderList ns

end

mutual

/-- The text-node strings of a subtree in document order
(BeautifulSoup `.strings`). -/
def HtmlNode.textFragments : HtmlNode → List String
  | .txt s => [s]
  | .elem _ _ cs => textFragmentsList cs

/-- The text-node strings of a forest in document order. -/
def textFragmentsList : List HtmlNode → List String
  | [] => []
  | n :: ns => n.textFragments ++ textFragmentsList ns

end

/-- `get_text(sep, strip=True)` over a forest: strip each text fragment,
drop the empty ones, join with the separator. -/
def getTextSepStrip (sep : String) (ns : List HtmlNode) : String :=
  String.intercalate sep (((textFragmentsList ns).map pyStrip).filter (fun s => s ≠ ""))

/-- `get_text(sep, strip=True)` of a single element. -/
def HtmlNode.getTextStrip (n : HtmlNode) (sep : String) : String :=
  getTextSepStrip sep [n]

/-- The `.text` property: concatenation of all text fragments. -/
def HtmlNode.textRaw (n : HtmlNode) : String :=
  String.join n.textFragments

/-- Attribute lookup on an element node. -/
def HtmlNode.attr? : HtmlNode → String → Option String
  | .elem _ attrs _, k => (attrs.find? (fun p => p.1 == k)).map Prod.snd
  | .txt _, _ => none

/-- The children of a node. -/
def HtmlNode.childNodes : HtmlNode → List HtmlNode
  | .elem _ _ cs => cs
  | .txt _ => []

/-- Tag test. -/
def HtmlNode.isTag (n : HtmlNode) (t : String) : Bool :=
  match n with
  | .elem tg _ _ => tg == t
  | .txt _ => false

/-- CSS `[href^='p']`: the element has an href attribute starting with `p`. -/
def hrefStarts (n : HtmlNode) (p : String) : Bool :=
  match n.attr? "href" with
  | some h => p.toList.isPrefixOf h.toList
  | none => false

/-- CSS `[href*='sub']`. -/
def hrefContains (n : HtmlNode) (sub : String) : Bool :=
  match n.attr? "href" with
  | some h => pyContains h sub
  | none => false

/-- CSS `[title*='sub']`. -/
def titleContains (n : HtmlNode) (sub : String) : Bool :=
  match n.attr? "title" with
  | some t => pyContains t sub
  | none => false

/-- Python `str.split()` (split on whitespace runs, dropping empties);
the first argument accumulates the current token reversed. -/
def splitWsGo : List Char → List Char → List (List Char)
  | cur, [] => if cur.isEmpty then [] else [cur.reverse]
  | cur, c :: cs =>
    if isPySpace c then
      if cur.isEmpty then splitWsGo [] cs else cur.reverse :: splitWsGo [] cs
    else splitWsGo (c :: cur) cs

/-- The multi-valued `class` attribute of an element (BeautifulSoup splits
the attribute on whitespace). -/
def HtmlNode.hasClass (n : HtmlNode) (cl : String) : Bool :=
  match n.attr? "class" with
  | some v => (splitWsGo [] v.toList).contains cl.toList
  | none => false

/-! ## The phone regex `PHONE_RE`

`(?:\+1[\s\-\.‑‒–—]?)?(?:\(?\d{3}\)?[\s\-\.‑‒–—]?)\d{3}[\s\-\.‑‒–—]?\d{4}`

The separator class, optional parentheses and optional `+1` prefix never
overlap with the digit groups that follow them, so the greedy match at a
given start position is computed deterministically; `re.search` /
`re.findall` then scan start positions from the left. -/

/-- The separator class `[\s\-\.‑‒–—]`. -/
def isPhoneSep (c : Char) : Bool :=
  isPySpace c || c = '-' || c = '.' ||
    c = '‑' || c = '‒' || c = '–' || c = '—'

/-- Consume exactly `n` digits; returns the digits and the remainder. -/
def consumeDigits : Nat → List Char → Option (List Char × List Char)
  | 0, cs => some ([], cs)
  | _ + 1, [] => none
  | n + 1, c :: cs =>
    if isAsciiDigit c then (consumeDigits n cs).map (fun p => (c :: p.1, p.2)) else none

/-- Consume an optional single character satisfying `p` (a greedy `X?`). -/
def consumeOpt (p : Char → Bool) : List Char → (List Char × List Char)
  | [] => ([], [])
  | c :: cs => if p c then ([c], cs) else ([], c :: cs)

/-- Match `\(?\d{3}\)?[sep]?\d{3}[sep]?\d{4}` at the start of the input;
returns the matched characters and the remainder. -/
def phoneCoreAt (cs : List Char) : Option (List Char × List Char) :=
  let (p1, cs1) := consumeOpt (fun c => c = '(') cs
  match consumeDigits 3 cs1 with
  | none => none
  | some (d1, cs2) =>
    let (p2, cs3) := consumeOpt (fun c => c = ')') cs2
    let (p3, cs4) := consumeOpt isPhoneSep cs3
    match consumeDigits 3 cs4 with
    | none => none
    | some (d2, cs5) =>
      let (p4, cs6) := consumeOpt isPhoneSep cs5
      match consumeDigits 4 cs6 with
      | none => none
      | some (d3, cs7) => some (p1 ++ d1 ++ p2 ++ p3 ++ d2 ++ p4 ++ d3, cs7)

/-- Match the whole phone regex at the start of the input.  The optional
`+1` prefix is tried greedily first, falling back to the bare core — which
is exactly the regex engine's backtracking order (when a separator follows
`+1` but the core then fails, the intermediate alternative without the
separator also fails, because the core never starts with a separator). -/
def phoneMatchAt (cs : List Char) : Option (List Char × List Char) :=
  match cs with
  | '+' :: '1' :: rest =>
    let (ps, rest2) := consumeOpt isPhoneSep rest
    (match phoneCoreAt rest2 with
     | some (m, r) => some ('+' :: '1' :: (ps ++ m), r)
     | none => phoneCoreAt ('+' :: '1' :: rest))
  | _ => phoneCoreAt cs

/-- Does the predicate hold on some suffix of the list?  Models trying all
start positions of `re.search`. -/
def anySuffix (p : List Char → Bool) : List Char → Bool
  | [] => p []
  | c :: cs => p (c :: cs) || anySuffix p cs

/-- `PHONE_RE.search(s)` (existence only). -/
def phoneSearch (s : String) : Bool :=
  anySuffix (fun cs => (phoneMatchAt cs).isSome) s.toList

/-- `PHONE_RE.findall(s)`: scan from the left; after a match continue at
its end, otherwise advance one character.  A match always consumes at
least one character, so fuel equal to the input length suffices. -/
def phoneFindAllGo : Nat → List Char → List String
  | 0, _ => []
  | _ + 1, [] => []
  | fuel + 1, c :: rest =>
    match phoneMatchAt (c :: rest) with
    | some (m, r) => (⟨m⟩ : String) :: phoneFindAllGo fuel r
    | none => phoneFindAllGo fuel rest

/-- `PHONE_RE.findall`. -/
def phoneFindAll (s : String) : List String :=
  phoneFindAllGo s.toList.length s.toList

/-- The search `re.search(r'age\s*:?\s*\d{1,3}', body_text)` (existence
only, used as a detail-page signal): the literal `age`, optional
whitespace, an optional colon, optional whitespace, then a digit. -/
def ageSignalAt (cs : List Char) : Bool :=
  match cs with
  | 'a' :: 'g' :: 'e' :: rest =>
    let r1 := rest.dropWhile isPySpace
    let r2 := match r1 with
      | ':' :: r => r.dropWhile isPySpace
      | _ => r1
    match r2 with
    | c :: _ => isAsciiDigit c
    | [] => false
  | _ => false

/-- `re.search(r'age\s*:?\s*\d{1,3}', body_text)` over the whole string. -/
def ageSearch (s : String) : Bool :=
  anySuffix ageSignalAt s.toList

/-! ## Detail-page confirmation -/

namespace Edge

/-- `is_detail_page_html` from `fps_scraper_edge.py`: reject empty HTML and
anything classified as a challenge or blocked, then count four structural
signals (phone links or a phone pattern in the text; address links or
address phrases; an age pattern; relative/associate phrases) and accept at
one or more signals.  `doc` is the BeautifulSoup parse of `html`. -/
def is_detail_page_html (html : String) (doc : List HtmlNode) : Bool :=
  if html = "" then false
  else if is_cloudflare_challenge html || looks_blocked html then false
  else
    let body_text := pyLower (getTextSepStrip " " doc)
    let anchors := (preorderList doc).filter (fun n => n.isTag "a")
    let signals :=
      (if anchors.any (fun a => hrefStarts a "tel:" || hrefContains a "/phone/")
          || phoneSearch body_text then 1 else 0)
      + (if anchors.any (fun a => hrefContains a "/address/")
          || pyContains body_text "current address"
          || pyContains body_text "address history" then 1 else 0)
      + (if ageSearch body_text then 1 else 0)
      + (if ["possible relatives", "relatives", "associated people", "associates"].any
            (fun k => pyContains body_text k) then 1 else 0)
    signals ≥ 1

end Edge

namespace Chrome

/-- `DETAIL_MIN_SIGNALS` from `fps_scraper_chrome.py`. -/
def DETAIL_MIN_SIGNALS : Nat := 2

/-- `is_detail_page_html` from `fps_scraper_chrome.py`: reject empty HTML,
then count five structural signals (an `age-header` element; anchors titled
"Details for" inside the relative/associate link boxes; phone-titled
anchors; an address-titled anchor; background-report/FAQ sections) and
accept at `DETAIL_MIN_SIGNALS` or more.  No challenge/block check is
performed here.  `doc` is the BeautifulSoup parse of `html`. -/
def is_detail_page_html (html : String) (doc : List HtmlNode) : Bool :=
  if html = "" then false
  else
    let P := preorderList doc
    let signals :=
      (if P.any (fun n => n.attr? "id" == some "age-header") then 1 else 0)
      + (if (P.filter (fun n =>
              n.attr? "id" == some "relative-links"
                || n.attr? "id" == some "associate-links")).any
            (fun box => (preorderList box.childNodes).any
              (fun a => a.isTag "a" && titleContains a "Details for")) then 1 else 0)
      + (if P.any (fun a => a.isTag "a" && titleContains a "phone number") then 1 else 0)
      + (if P.any (fun a => a.isTag "a" && titleContains a "Search people living at")
          then 1 else 0)
      + (if P.any (fun n =>
            n.attr? "id" == some "background-report" || n.attr? "id" == some "faqs")
          then 1 else 0)
    signals ≥ DETAIL_MIN_SIGNALS

end Chrome

/-- A challenge interstitial that nevertheless shows two structural
detail-page signals (an `age-header` heading and a phone-titled anchor). -/
def challengeDetailHtml : String :=
  "<html><body>Just a moment...<h2 id=\"age-header\">Age: 54</h2><a title=\"Search people associated with the phone number (555) 123-4567\" href=\"/phone/5551234567\">(555) 123-4567</a></body></html>"

/-- The BeautifulSoup parse of `challengeDetailHtml`. -/
def challengeDetailDoc : List HtmlNode :=
  [.elem "html" []
    [.elem "body" []
      [.txt "Just a moment...",
       .elem "h2" [("id", "age-header")] [.txt "Age: 54"],
       .elem "a"
         [("title", "Search people associated with the phone number (555) 123-4567"),
          ("href", "/phone/5551234567")]
         [.txt "(555) 123-4567"]]]]


/-! ## Phone normalization and deduplication -/

/-- `_normalize_phone` digit canonical form
`f'({d[0:3]}) {d[3:6]}-{d[6:10]}'`. -/
def format10 (ds : List Char) : String :=
  ⟨'(' :: ds.take 3 ++ ')' :: ' ' :: ((ds.drop 3).take 3) ++ '-' :: ((ds.drop 6).take 4)⟩

/-- `_normalize_phone` from `fps_scraper_edge.py`: keep only digits, strip a
leading country digit when 11 digits remain, format 10-digit results
canonically, and fall back to the stripped raw string otherwise. -/
def normalize_phone (raw : String) : String :=
  let digits0 := raw.toList.filter isAsciiDigit
  let digits :=
    if digits0.length = 11 ∧ digits0.head? = some '1' then digits0.drop 1 else digits0
  if digits.length = 10 then format10 digits
  else pyStrip raw

/-- Is the string exactly of the canonical form `(NNN) NNN-NNNN`? -/
def isCanonicalPhone (s : String) : Bool :=
  match s.toList with
  | '(' :: a :: b :: c :: ')' :: ' ' :: d :: e :: f :: '-' :: g :: h :: i :: j :: [] =>
    [a, b, c, d, e, f, g, h, i, j].all isAsciiDigit
  | _ => false

/-- `_dedupe_preserve_order` from `fps_scraper_edge.py`: strip each item,
drop empties and items already seen, preserve first-seen order.  The Python
`seen` set is modelled by a list used for membership only. -/
def dedupe_preserve_order_aux (seen : List String) : List String → List String
  | [] => []
  | x :: xs =>
    let x2 := pyStrip x
    if x2 ≠ "" && !(seen.contains x2) then x2 :: dedupe_preserve_order_aux (x2 :: seen) xs
    else dedupe_preserve_order_aux seen xs

/-- `_dedupe_preserve_order`. -/
def dedupe_preserve_order (l : List String) : List String :=
  dedupe_preserve_order_aux [] l

/-! ## Email decoding and the email regex -/

/-- Value of one hexadecimal digit. -/
def hexVal (c : Char) : Option Nat :=
  if '0' ≤ c && c ≤ '9' then some (c.toNat - 48)
  else if 'a' ≤ c && c ≤ 'f' then some (c.toNat - 87)
  else if 'A' ≤ c && c ≤ 'F' then some (c.toNat - 55)
  else none

/-- Decode successive hex pairs XORed with the key (`decode_cf_email`'s
loop); a trailing single hex digit is parsed as its own value, as Python's
`int(cf_hex[i:i+2], 16)` does on a short tail. -/
def decodeHexPairs (key : Nat) : List Char → Option (List Char)
  | [] => some []
  | [c] => (hexVal c).map (fun v => [Char.ofNat (v ^^^ key)])
  | c1 :: c2 :: rest => do
    let v1 ← hexVal c1
    let v2 ← hexVal c2
    let tail ← decodeHexPairs key rest
    pure (Char.ofNat ((v1 * 16 + v2) ^^^ key) :: tail)

/-- `decode_cf_email` from `fps_scraper_edge.py`: the first hex byte is the
key, each later byte is XORed with it; any parse failure yields `None`. -/
def decode_cf_email (cf_hex : String) : Option String :=
  match cf_hex.toList with
  | [] => none
  | [c1] => (hexVal c1).map (fun _ => "")
  | c1 :: c2 :: rest => do
    let v1 ← hexVal c1
    let v2 ← hexVal c2
    let tail ← decodeHexPairs (v1 * 16 + v2) rest
    pure (⟨tail⟩ : String)

/-- The local-part class `[A-Z0-9._%+-]` of `EMAIL_RE` (with `re.I`). -/
def isEmailLocalChar (c : Char) : Bool :=
  isAsciiLetter c || isAsciiDigit c || c = '.' || c = '_' || c = '%' || c = '+' || c = '-'

/-- The domain class `[A-Z0-9.-]` of `EMAIL_RE` (with `re.I`). -/
def isEmailDomainChar (c : Char) : Bool :=
  isAsciiLetter c || isAsciiDigit c || c = '.' || c = '-'

/-- Split the greedy domain run for `[A-Z0-9.-]+\.[A-Z]{2,}`: find the
rightmost dot followed by at least two letters (the regex backtracks from
the longest `[A-Z0-9.-]+`), returning the part before the dot, the letter
run after it, and the unmatched remainder of the domain run. -/
def emailDomSplit : List Char → Option (List Char × List Char × List Char)
  | [] => none
  | c :: cs =>
    match emailDomSplit cs with
    | some (d1, tld, rem) => some (c :: d1, tld, rem)
    | none =>
      if c = '.' then
        let tld := cs.takeWhile isAsciiLetter
        if 2 ≤ tld.length then some ([], tld, cs.drop tld.length) else none
      else none

/-- Match `EMAIL_RE` at the start of the input; returns the matched
characters and the remainder. -/
def emailMatchAt (cs : List Char) : Option (List Char × List Char) :=
  let locPart := cs.takeWhile isEmailLocalChar
  let rest := cs.dropWhile isEmailLocalChar
  if locPart.isEmpty then none
  else
    match rest with
    | '@' :: rest2 =>
      let dom := rest2.takeWhile isEmailDomainChar
      let after := rest2.dropWhile isEmailDomainChar
      match emailDomSplit dom with
      | some (d1, tld, rem) =>
        if d1.isEmpty then none
        else some (locPart ++ '@' :: (d1 ++ '.' :: tld), rem ++ after)
      | none => none
    | _ => none

/-- `EMAIL_RE.findall`: scan from the left; after a match continue at its
end, otherwise advance one character. -/
def emailFindAllGo : Nat → List Char → List String
  | 0, _ => []
  | _ + 1, [] => []
  | fuel + 1, c :: rest =>
    match emailMatchAt (c :: rest) with
    | some (m, r) => (⟨m⟩ : String) :: emailFindAllGo fuel r
    | none => emailFindAllGo fuel rest

/-- `EMAIL_RE.findall`. -/
def emailFindAll (s : String) : List String :=
  emailFindAllGo s.toList.length s.toList

/-! ## The extraction result

The dictionary built by `_parse_detail_page_html_to_data` (same keys in
both scraper files). -/

structure EnrichedData where
  home_address : Option String
  phones : List String
  age : Option String
  relatives : List String
  emails : List String
  marital_status : Option String
  associates : List String
  previous_addresses : List String
  current_address_details : Option String
  background_report : Option String
  faqs : Option String
  page_url : String

/-- The all-empty dictionary the parsers start from. -/
def emptyEnriched (url : String) : EnrichedData :=
  { home_address := none, phones := [], age := none, relatives := [], emails := []
  , marital_status := none, associates := [], previous_addresses := []
  , current_address_details := none, background_report := none, faqs := none
  , page_url := url }

/-! ## Generic scanning helpers for `re.search` with capture -/

/-- Scan all start positions from the left and return the leftmost
successful capture. -/
def findMapSuffix {α} (f : List Char → Option α) : List Char → Option α
  | [] => f []
  | c :: cs =>
    match f (c :: cs) with
    | some r => some r
    | none => findMapSuffix f cs

/-- Case-insensitive literal prefix test (the pattern is lowercase). -/
def ciPrefix (pat : List Char) (cs : List Char) : Bool :=
  pat.isPrefixOf (cs.map Char.toLower)

/-! ## Edge parser: field extraction helpers -/

/-- The lazy tail of `current address\s*:?\s*(.+?)(?:\s{2,}|$)`: grow the
capture one non-newline character at a time (`.` does not match a newline),
stopping as soon as two consecutive whitespace characters follow or the
end of the string is reached. -/
def lazyCapture : List Char → Option (List Char)
  | [] => none
  | c :: cs =>
    if c = '\n' then none
    else
      match cs with
      | [] => some [c]
      | d :: ds =>
        if isPySpace d && (match ds with | e :: _ => isPySpace e | [] => false)
        then some [c]
        else (lazyCapture cs).map (fun t => c :: t)

/-- Match `current address\s*:?\s*(.+?)(?:\s{2,}|$)` (with `re.I`) at the
start of the input, returning group 1. -/
def currentAddrAt (cs : List Char) : Option (List Char) :=
  if ciPrefix "current address".toList cs then
    let rest := cs.drop 15
    let r1 := rest.dropWhile isPySpace
    let r2 := match r1 with
      | ':' :: r => r.dropWhile isPySpace
      | _ => r1
    lazyCapture r2
  else none

/-- Match `\bage\s*:?\s*(\d{1,3})\b` (with `re.I`) at the start of the
input (the leading boundary is checked by the caller), returning group 1:
the digit run must have length one to three and be followed by a non-word
character or the end (otherwise every backtracking choice ends on a digit
and the match fails). -/
def ageCaptureAt (cs : List Char) : Option (List Char) :=
  match cs with
  | a :: g :: e :: rest =>
    if a.toLower = 'a' && g.toLower = 'g' && e.toLower = 'e' then
      let r1 := rest.dropWhile isPySpace
      let r2 := match r1 with
        | ':' :: r => r.dropWhile isPySpace
        | _ => r1
      let run := r2.takeWhile isAsciiDigit
      let after := r2.dropWhile isAsciiDigit
      if 1 ≤ run.length && run.length ≤ 3
          && (match after with | c :: _ => !(isWordChar c) | [] => true)
      then some run else none
    else none
  | _ => none

/-- Scan for the age pattern, tracking the previous character for the
leading `\b` word boundary. -/
def ageScanGo (prev : Option Char) : List Char → Option (List Char)
  | [] => none
  | c :: rest =>
    let boundaryOk := match prev with
      | none => true
      | some p => !(isWordChar p)
    match (if boundaryOk then ageCaptureAt (c :: rest) else none) with
    | some r => some r
    | none => ageScanGo (some c) rest

/-- Do five whitespace characters follow (`\s{2,}` needs two, `\s{5,}`
needs five; this is the five-character version)? -/
def has5wsPrefix (cs : List Char) : Bool :=
  match cs with
  | a :: b :: c :: d :: e :: _ =>
    isPySpace a && isPySpace b && isPySpace c && isPySpace d && isPySpace e
  | _ => false

/-- The lazy tail of `(label.*?)\s{5,}` under `re.S` (`.` matches anything,
including newlines): grow until five consecutive whitespace characters
follow; fail at the end of input. -/
def grow5ws : List Char → Option (List Char)
  | [] => none
  | c :: rest =>
    if has5wsPrefix (c :: rest) then some []
    else (grow5ws rest).map (fun t => c :: t)

/-- Match `(label.*?)\s{5,}` (with `re.I | re.S`) at the start of the
input, returning group 1 (the label text as it appears plus the lazily
grown tail). -/
def bgCaptureAt (label : List Char) (cs : List Char) : Option (List Char) :=
  if ciPrefix label cs then
    (grow5ws (cs.drop label.length)).map (fun t => cs.take label.length ++ t)
  else none

/-- Match `(faq[s]?:?.+)$` (with `re.I | re.S`) at the start of the input:
under `re.S` the greedy `.+` runs to the end of the string, so group 1 is
the whole suffix, and a match exists exactly when at least one character
follows the optional `s`/`:` assignment — that is, when at least four
characters remain. -/
def faqsCaptureAt (cs : List Char) : Option (List Char) :=
  if ciPrefix "faq".toList cs && 4 ≤ cs.length then some cs else none

/-- Is the node one of the heading tags matched by
`find_all(re.compile(r'^h[1-6]$'))`? -/
def isHeadingTag (n : HtmlNode) : Bool :=
  match n with
  | .elem t _ _ => ["h1", "h2", "h3", "h4", "h5", "h6"].contains t
  | .txt _ => false

/-- Person links collected inside a relatives/associates container:
`container.select("a[href*='/name/'], a[href*='/person/'], a[href*='/people/']")`,
keeping non-empty names whose lowercase form does not contain "detail". -/
def collectPersonNames (container : HtmlNode) : List String :=
  ((preorderList container.childNodes).filter
      (fun a => a.isTag "a"
        && (hrefContains a "/name/" || hrefContains a "/person/"
          || hrefContains a "/people/"))).filterMap
    (fun a =>
      let nm := a.getTextStrip " "
      if nm ≠ "" && !(pyContains (pyLower nm) "detail") then some nm else none)

/-- The body of `_extract_names_by_heading`: walk the document in preorder
(`find_all` order); at each keyword heading, `find_next` locates the first
following `div`/`section`/`ul`/`ol` in document order — in a preorder
listing that is the first such element of the remaining suffix — and its
person links are collected. -/
def scanHeadings (keywords : List String) : List HtmlNode → List String
  | [] => []
  | n :: rest =>
    (if isHeadingTag n
        && keywords.any (fun k => pyContains (pyLower (n.getTextStrip " ")) k) then
      match rest.find? (fun t =>
          t.isTag "div" || t.isTag "section" || t.isTag "ul" || t.isTag "ol") with
      | some container => collectPersonNames container
      | none => []
    else []) ++ scanHeadings keywords rest

/-- `_extract_names_by_heading` from `fps_scraper_edge.py`. -/
def extract_names_by_heading (keywords : List String) (doc : List HtmlNode) : List String :=
  dedupe_preserve_order (scanHeadings keywords (preorderList doc))

/-- The part of a string after its first colon (`s.split(":", 1)[1]`,
guarded by the caller so a colon is present). -/
def afterFirstColon (s : String) : String :=
  ⟨(s.toList.dropWhile (fun c => c ≠ ':')).drop 1⟩

namespace Edge

/-- `_parse_detail_page_html_to_data` from `fps_scraper_edge.py`.
`doc` is the BeautifulSoup parse of `html`; `body_text` is
`soup.get_text(" ", strip=True)` (not lowercased here).  The
`marital_status` key is never assigned.  Each `try/except` block writes
one field; none of the embedded operations can raise. -/
def parse_detail_page_html_to_data (html : String) (doc : List HtmlNode)
    (current_url : String) : EnrichedData :=
  if html = "" then emptyEnriched current_url
  else
    let P := preorderList doc
    let body_text := getTextSepStrip " " doc
    -- Address
    let home_address : Option String :=
      let fromAnchor : Option String :=
        match P.find? (fun a => a.isTag "a" && hrefContains a "/address/") with
        | some el =>
          let t := el.getTextStrip " "
          if t = "" then none else some t
        | none => none
      match fromAnchor with
      | some t => some t
      | none => (findMapSuffix currentAddrAt body_text.toList).map
          (fun g => pyStrip (⟨g⟩ : String))
    -- Phones
    let phoneAnchors := P.filter
      (fun a => a.isTag "a" && (hrefStarts a "tel:" || hrefContains a "/phone/"))
    let phones0 := phoneAnchors.flatMap (fun a =>
      let t :=
        let g := a.getTextStrip " "
        if g ≠ "" then g else (a.attr? "href").getD ""
      phoneFindAll t)
    let phones1 := if phones0.isEmpty then phoneFindAll body_text else phones0
    let phones := (dedupe_preserve_order (phones1.map normalize_phone)).take 5
    -- Age
    let age := (ageScanGo none body_text.toList).map (fun run => (⟨run⟩ : String))
    -- Emails
    let cfEmails := (P.filter (fun a => a.isTag "a" && a.hasClass "__cf_email__")).filterMap
      (fun cf =>
        match cf.attr? "data-cfemail" with
        | some h =>
          if h ≠ "" then
            match decode_cf_email h with
            | some d => if d ≠ "" then some d else none
            | none => none
          else none
        | none => none)
    let mailtos := (P.filter (fun a => a.isTag "a" && hrefStarts a "mailto:")).filterMap
      (fun a =>
        let href := (a.attr? "href").getD ""
        if "mailto:".toList.isPrefixOf (pyLower href).toList
        then some (afterFirstColon href) else none)
    let emails0 := cfEmails ++ mailtos
    let emails1 := if emails0.isEmpty then emailFindAll body_text else emails0
    let emails := dedupe_preserve_order emails1
    -- Relatives / Associates
    let relatives := extract_names_by_heading ["possible relatives", "relatives"] doc
    let associates := extract_names_by_heading ["associated people", "associates"] doc
    -- Previous addresses
    let addr_links := dedupe_preserve_order
      ((P.filter (fun a => a.isTag "a" && hrefContains a "/address/")).map
        (fun a => a.getTextStrip " "))
    let previous_addresses := if addr_links ≠ [] then addr_links.drop 1 else []
    -- Background / FAQs
    let background_report :=
      match findMapSuffix (bgCaptureAt "background report".toList) body_text.toList with
      | some g => some (pyStrip (⟨g⟩ : String))
      | none =>
        (findMapSuffix (bgCaptureAt "background check".toList) body_text.toList).map
          (fun g => pyStrip (⟨g⟩ : String))
    let faqs := (findMapSuffix faqsCaptureAt body_text.toList).map
      (fun g => pyStrip (⟨g⟩ : String))
    { home_address := home_address, phones := phones, age := age
    , relatives := relatives, emails := emails, marital_status := none
    , associates := associates, previous_addresses := previous_addresses
    , current_address_details := none, background_report := background_report
    , faqs := faqs, page_url := current_url }

end Edge

namespace Chrome

/-- `_parse_detail_page_html_to_data` from `fps_scraper_chrome.py`.
`doc` is the BeautifulSoup parse of `html`.  Lists are built by direct
comprehension: the phone list is capped at five elements but no field is
deduplicated. -/
def parse_detail_page_html_to_data (html : String) (doc : List HtmlNode)
    (current_url : String) : EnrichedData :=
  if html = "" then emptyEnriched current_url
  else
    let P := preorderList doc
    let home_address :=
      (P.find? (fun a => a.isTag "a" && titleContains a "Search people living at")).map
        (fun el => pyStrip el.textRaw)
    let phones :=
      ((P.filter (fun a =>
          a.isTag "a" && titleContains a
            "Search people associated with the phone number")).take 5).map
        (fun el => pyStrip el.textRaw)
    let age :=
      match P.find? (fun n => n.isTag "h2" && n.attr? "id" == some "age-header") with
      | some el =>
        let ds := (el.getTextStrip " ").toList.dropWhile (fun c => !(isAsciiDigit c))
        match ds with
        | [] => none
        | _ => some (⟨(ds.takeWhile isAsciiDigit).take 3⟩ : String)
      | none => none
    let relatives :=
      match P.find? (fun n => n.isTag "div" && n.attr? "id" == some "relative-links") with
      | some box =>
        ((preorderList box.childNodes).filter
            (fun a => a.isTag "a" && titleContains a "Details for")).map
          (fun el => pyStrip el.textRaw)
      | none => []
    let emails :=
      ((P.filter (fun a => a.isTag "a" && a.hasClass "__cf_email__")).map
          (fun el => el.getTextStrip "")).filter (fun s => s ≠ "")
    let marital_status :=
      match P.find? (fun n =>
          n.isTag "div" && n.attr? "id" == some "marital_status_section") with
      | some box =>
        ((preorderList box.childNodes).find? (fun p => p.isTag "p")).map
          (fun p => p.getTextStrip " ")
      | none => none
    let associates :=
      match P.find? (fun n => n.isTag "div" && n.attr? "id" == some "associate-links") with
      | some box =>
        ((preorderList box.childNodes).filter
            (fun a => a.isTag "a" && titleContains a "Details for")).map
          (fun el => pyStrip el.textRaw)
      | none => []
    let previous_addresses :=
      match P.find? (fun n =>
          n.isTag "div" && n.attr? "id" == some "previous-addresses") with
      | some box =>
        ((preorderList box.childNodes).filter
            (fun a => a.isTag "a" && titleContains a "Search people who live at")).map
          (fun el => pyStrip el.textRaw)
      | none => []
    let current_address_details :=
      (P.find? (fun n =>
          n.isTag "div" && n.attr? "id" == some "current-address-details")).map
        (fun el => el.getTextStrip " ")
    let background_report :=
      (P.find? (fun n =>
          n.isTag "div" && n.attr? "id" == some "background-report")).map
        (fun el => el.getTextStrip " ")
    let faqs :=
      (P.find? (fun n => n.isTag "div" && n.attr? "id" == some "faqs")).map
        (fun el => el.getTextStrip "\n")
    { home_address := home_address, phones := phones, age := age
    , relatives := relatives, emails := emails, marital_status := marital_status
    , associates := associates, previous_addresses := previous_addresses
    , current_address_details := current_address_details
    , background_report := background_report, faqs := faqs, page_url := current_url }

end Chrome

/-- A detail page whose phone anchor is repeated: the chrome parser
extracts the same number twice. -/
def dupPhonesHtml : String :=
  "<html><body><a title=\"Search people associated with the phone number (555) 123-4567\" href=\"/p1\">(555) 123-4567</a><a title=\"Search people associated with the phone number (555) 123-4567\" href=\"/p2\">(555) 123-4567</a></body></html>"

/-- The BeautifulSoup parse of `dupPhonesHtml`. -/
def dupPhonesDoc : List HtmlNode :=
  [.elem "html" []
    [.elem "body" []
      [.elem "a"
         [("title", "Search people associated with the phone number (555) 123-4567"),
          ("href", "/p1")]
         [.txt "(555) 123-4567"],
       .elem "a"
         [("title", "Search people associated with the phone number (555) 123-4567"),
          ("href", "/p2")]
         [.txt "(555) 123-4567"]]]]

/-! ## Candidate Selector: scoring and selection

`_open_best_result` (edge) and `_get_best_result_href` (chrome) score the
candidate anchors and pick `sorted(scored, key=lambda x: x[1],
reverse=True)[0][0]`.  A candidate element is modelled by its display text
and its `href` / `data-href` attributes. -/

structure Anchor where
  text : String
  href : Option String
  dataHref : Option String

/-- Lowercase ASCII letter. -/
def isLowerAlpha (c : Char) : Bool :=
  'a' ≤ c && c ≤ 'z'

/-- Collapse each maximal whitespace run to a single space
(`re.sub(r"\s+", " ", s)`). -/
def collapseWsSp : Bool → List Char → List Char
  | _, [] => []
  | prevWs, c :: cs =>
    if isPySpace c then
      if prevWs then collapseWsSp true cs else ' ' :: collapseWsSp true cs
    else c :: collapseWsSp false cs

/-- `_normalize_name`: lowercase, replace every character other than a
lowercase letter or whitespace by a space, collapse whitespace runs to
single spaces, strip. -/
def normalize_name (s : String) : String :=
  pyStrip ⟨collapseWsSp false
    ((pyLower s).toList.map (fun c => if isLowerAlpha c || isPySpace c then c else ' '))⟩

/-- Python `x or y` on an optional string (`None` and `""` are falsy). -/
def pyOr (x : Option String) (y : String) : String :=
  match x with
  | some s => if s ≠ "" then s else y
  | none => y

/-- `_score_anchor_for_name` (identical logic in both files; the chrome
variant reads only `href`, the edge variant falls back to `data-href` —
the edge form is used).  `nf`/`nl` are the already-normalized name
tokens. -/
def score_anchor_for_name (nf nl : String) (a : Anchor) : Nat :=
  let txt := normalize_name a.text
  let href := normalize_name (pyOr a.href (pyOr a.dataHref ""))
  let s1 : Nat :=
    if pyContains txt nf ∧ pyContains txt nl then 2
    else if pyContains txt nf ∨ pyContains txt nl then 1
    else 0
  let s2 : Nat := if pyContains href nf ∧ pyContains href nl then 1 else 0
  s1 + s2

/-- Insertion step of a stable descending sort by key: the new element
(earlier in the original list) is placed before the first element whose
key is not larger. -/
def insertDescBy {α : Type} (key : α → Nat) (x : α) : List α → List α
  | [] => [x]
  | y :: ys => if key x < key y then y :: insertDescBy key x ys else x :: y :: ys

/-- Stable descending sort by key, modelling Python's stable
`sorted(l, key=key, reverse=True)`. -/
def sortDescBy {α : Type} (key : α → Nat) : List α → List α
  | [] => []
  | x :: xs => insertDescBy key x (sortDescBy key xs)

/-- The selection step shared by `_open_best_result` (edge) and
`_get_best_result_href` (chrome): return `None` on an empty candidate
list, otherwise score every candidate against the normalized names, sort
the `(anchor, score)` pairs by score descending (stably) and take the
first pair's anchor. -/
def open_best_choice (first last : String) (cands : List Anchor) : Option Anchor :=
  match cands with
  | [] => none
  | _ =>
    let nf := normalize_name first
    let nl := normalize_name last
    let scored := cands.map (fun a => (a, score_anchor_for_name nf nl a))
    ((sortDescBy (fun p => p.2) scored).head?).map Prod.fst

/-! ## Batch Orchestrator: gate counter and manual fallback

One record of `main` (edge) either is skipped before navigation (invalid
or composite name), or aborts with a record-level exception caught at the
bottom of the loop (leaving the counter unchanged), or completes
`do_record_auto`, which returns the counter increased by one when a gate
was seen, plus a `need_manual` flag.  After a completed auto phase the
record is routed to `do_record_manual` when the flag is set or the counter
has reached `MAX_GATES_BEFORE_MANUAL`. -/

/-- `MAX_GATES_BEFORE_MANUAL`. -/
def MAX_GATES_BEFORE_MANUAL : Nat := 3

/-- `RESULTS_SAVE_EVERY`. -/
def RESULTS_SAVE_EVERY : Nat := 10

inductive RecEvent where
  | invalid
  | autoRaise
  | auto (gateSeen : Bool) (needManual : Bool)

/-- One iteration of the record loop: the new gate counter and whether the
record is routed through the manual fallback path. -/
def gateStep (c : Nat) : RecEvent → Nat × Bool
  | .invalid => (c, false)
  | .autoRaise => (c, false)
  | .auto gateSeen needManual =>
    let c2 := c + (if gateSeen then 1 else 0)
    (c2, needManual || decide (MAX_GATES_BEFORE_MANUAL ≤ c2))

/-- The gate counter after processing a list of records. -/
def counterAfter (c0 : Nat) (es : List RecEvent) : Nat :=
  es.foldl (fun c e => (gateStep c e).1) c0

/-- The per-record `(counter, manual-routed)` observations of a run. -/
def gateRun (c : Nat) : List RecEvent → List (Nat × Bool)
  | [] => []
  | e :: es => gateStep c e :: gateRun (gateStep c e).1 es

/-! ## Checkpointing: `save_atomic` and the periodic save schedule

`save_atomic` writes the whole table to `path + ".tmp"` and then calls
`os.replace(tmp, path)`.  The file system is modelled by the contents of
the temporary and durable files; writing the temporary file is two events
(begin, end) so a crash — taking a prefix of the event trace — can land
mid-write, while `os.replace` is a single atomic event. -/

inductive FileData (α : Type) where
  | absent
  | incomplete
  | complete (t : α)
deriving DecidableEq

structure FsState (α : Type) where
  tmp : FileData α
  durable : FileData α
deriving DecidableEq

inductive FsEvent (α : Type) where
  | beginWrite
  | endWrite (t : α)
  | replace

/-- Effect of one file-system event. -/
def fsStep {α : Type} (s : FsState α) : FsEvent α → FsState α
  | .beginWrite => { s with tmp := FileData.incomplete }
  | .endWrite t => { s with tmp := FileData.complete t }
  | .replace => { tmp := FileData.absent, durable := s.tmp }

/-- The events of one `save_atomic(df, path)` call. -/
def saveAtomicEvents {α : Type} (t : α) : List (FsEvent α) :=
  [FsEvent.beginWrite, FsEvent.endWrite t, FsEvent.replace]

/-- The event trace of a sequence of checkpoints. -/
def traceOf {α : Type} (ts : List α) : List (FsEvent α) :=
  ts.flatMap saveAtomicEvents

/-- The tables checkpointed during a run of `n` records in which no record
raises: `tables k` is the in-memory table after `k` records; the loop
saves after record `idx` whenever `(idx + 1) % RESULTS_SAVE_EVERY == 0`,
and a final save follows the loop. -/
def checkpointTables {α : Type} (tables : Nat → α) (n : Nat) : List α :=
  ((List.range n).filterMap (fun idx =>
    if (idx + 1) % RESULTS_SAVE_EVERY = 0 then some (tables (idx + 1)) else none))
    ++ [tables n]

/-- The full file-system event trace of such a run. -/
def checkpointTrace {α : Type} (tables : Nat → α) (n : Nat) : List (FsEvent α) :=
  traceOf (checkpointTables tables n)

/-- Run a list of file-system events. -/
def runFs {α : Type} (s : FsState α) (es : List (FsEvent α)) : FsState α :=
  es.foldl fsStep s

/-- Three concrete candidates: the first two tie at the maximal score for
the target name "John Smith", the third scores lower. -/
def tieCands : List Anchor :=
  [Anchor.mk "John Smith" (some "/name/john-1") none,
   Anchor.mk "John Smith" (some "/name/john-2") none,
   Anchor.mk "Jane Doe" none none]

/-! ## Theorems -/

/-! ## Supporting lemmas about the string primitives -/

theorem mem_of_mem_dropWhile {α} (p : α → Bool) :
    ∀ l : List α, ∀ a ∈ l.dropWhile p, a ∈ l := by
  intro l
  induction l with
  | nil => intro a ha; exact absurd ha (by simp)
  | cons x xs ih =>
    intro a ha
    by_cases hx : p x
    · simp only [List.dropWhile_cons, hx, if_true] at ha
      exact List.mem_cons_of_mem _ (ih a ha)
    · simp only [List.dropWhile_cons, hx] at ha
      simpa using ha

theorem mem_of_mem_pyStripList {c : Char} {l : List Char} (h : c ∈ pyStripList l) :
    c ∈ l := by
  unfold pyStripList at h
  rw [List.mem_reverse] at h
  have h2 := mem_of_mem_dropWhile _ _ _ h
  rw [List.mem_reverse] at h2
  exact mem_of_mem_dropWhile _ _ _ h2

theorem sanitize_name_chars (s : String) :
    ∀ c ∈ (sanitize_name s).toList, isAsciiLetter c || c = '-' := by
  intro c hc
  simp only [sanitize_name, String.toList, List.mem_map] at hc
  obtain ⟨d, hd, rfl⟩ := hc
  have hd2 := mem_of_mem_pyStripList hd
  have hd3 := (List.mem_filter.1 hd2).2
  by_cases hsp : d = ' '
  · simp [hsp]
  · simp only [if_neg hsp]
    simp only [Bool.or_eq_true, decide_eq_true_eq] at hd3 ⊢
    rcases hd3 with (h | h) | h
    · exact Or.inl h
    · exact Or.inr h
    · exact absurd h hsp

theorem quotePlusSafe_of_letter_or_hyphen {c : Char}
    (h : isAsciiLetter c || c = '-') : quotePlusSafe c = true := by
  simp only [quotePlusSafe, Bool.or_eq_true, decide_eq_true_eq]
  simp only [Bool.or_eq_true, decide_eq_true_eq] at h
  tauto

theorem flatMap_quotePlusChar_id {l : List Char}
    (h : ∀ c ∈ l, isAsciiLetter c || c = '-') :
    l.flatMap quotePlusChar = l := by
  induction l with
  | nil => rfl
  | cons x xs ih =>
    have hx := h x (List.mem_cons_self x xs)
    have hsafe := quotePlusSafe_of_letter_or_hyphen hx
    simp only [List.flatMap_cons, quotePlusChar, hsafe, if_true]
    simp only [List.singleton_append, List.cons.injEq, true_and]
    exact ih (fun c hc => h c (List.mem_cons_of_mem _ hc))

theorem quote_plus_eq_self {s : String}
    (h : ∀ c ∈ s.toList, isAsciiLetter c || c = '-') : quote_plus s = s := by
  unfold quote_plus
  have h2 := flatMap_quotePlusChar_id h
  cases s with
  | mk data =>
    simp only [String.toList] at h2 ⊢
    rw [h2]

theorem quote_plus_sanitize (s : String) :
    quote_plus (sanitize_name s) = sanitize_name s :=
  quote_plus_eq_self (sanitize_name_chars s)

theorem char_toNat_lt (c : Char) : c.toNat < 1114112 := by
  have h := c.valid
  rcases h with h | ⟨_, h⟩
  · exact Nat.lt_trans h (by norm_num)
  · exact h

theorem utf8Bytes_lt_256 (c : Char) : ∀ b ∈ utf8Bytes c, b < 256 := by
  intro b hb
  have hv := char_toNat_lt c
  simp only [utf8Bytes] at hb
  split at hb
  · simp only [List.mem_cons, List.not_mem_nil, or_false] at hb
    subst hb; omega
  · split at hb
    · simp only [List.mem_cons, List.not_mem_nil, or_false] at hb
      rcases hb with rfl | rfl <;> omega
    · split at hb
      · simp only [List.mem_cons, List.not_mem_nil, or_false] at hb
        rcases hb with rfl | rfl | rfl <;> omega
      · simp only [List.mem_cons, List.not_mem_nil, or_false] at hb
        rcases hb with rfl | rfl | rfl | rfl <;> omega

theorem isUrlChar_hexDigit {n : Nat} (h : n < 16) : isUrlChar (hexDigit n) = true := by
  interval_cases n <;> decide

theorem isUrlChar_of_quotePlusSafe {c : Char} (h : quotePlusSafe c = true) :
    isUrlChar c = true := by
  simp only [quotePlusSafe, Bool.or_eq_true, decide_eq_true_eq] at h
  simp only [isUrlChar, Bool.or_eq_true, decide_eq_true_eq]
  tauto

theorem isUrlChar_quotePlusChar (c : Char) : ∀ d ∈ quotePlusChar c, isUrlChar d = true := by
  intro d hd
  unfold quotePlusChar at hd
  split at hd
  · simp only [List.mem_singleton] at hd
    subst hd
    exact isUrlChar_of_quotePlusSafe (by assumption)
  · split at hd
    · simp only [List.mem_singleton] at hd
      subst hd; decide
    · simp only [List.mem_flatMap] at hd
      obtain ⟨b, hb, hd⟩ := hd
      have hblt := utf8Bytes_lt_256 c b hb
      simp only [List.mem_cons, List.not_mem_nil, or_false] at hd
      rcases hd with rfl | rfl | rfl
      · decide
      · exact isUrlChar_hexDigit (by omega)
      · exact isUrlChar_hexDigit (Nat.mod_lt _ (by norm_num))

theorem quote_plus_urlChars (s : String) :
    ∀ c ∈ (quote_plus s).toList, isUrlChar c = true := by
  intro c hc
  simp only [quote_plus, String.toList, List.mem_flatMap] at hc
  obtain ⟨d, _, hc⟩ := hc
  exact isUrlChar_quotePlusChar d c hc

theorem isPrefixOf_append_self {α} [BEq α] [LawfulBEq α] :
    ∀ a rest : List α, a.isPrefixOf (a ++ rest) = true := by
  intro a rest
  induction a with
  | nil => cases rest <;> rfl
  | cons x xs ih => simp [List.isPrefixOf, ih]

theorem build_fps_url_toList (first last address zip_code : Option String) :
    (build_fps_url first last address zip_code).toList =
      "https://".toList ++ ("www.fastpeoplesearch.com/name/".toList
        ++ ((quote_plus (sanitize_name (first.getD ""))).toList
          ++ ("-".toList ++ ((quote_plus (sanitize_name (last.getD ""))).toList
            ++ ("_".toList ++ (quote_plus (fps_location address zip_code)).toList))))) := by
  simp only [build_fps_url, String.toList, String.data_append, List.append_assoc]
  rfl

/-- **C4.**  For every `(first, last, address, zip_code)` input, including
`None` (modelled as `none`) and empty strings, `build_fps_url` returns a
value (it is a total function, so it never raises), that value is a
syntactically valid https URL, and its name segment consists of the first
and last names with all characters other than letters, hyphens and spaces
removed and internal spaces replaced by hyphens (the sanitized names are
fixed points of `quote_plus`, so they appear verbatim in the URL). -/
theorem claim_C4_build_fps_url_valid (first last address zip_code : Option String) :
    build_fps_url first last address zip_code =
      "https://www.fastpeoplesearch.com/name/" ++ spec_sanitized_name (first.getD "")
        ++ "-" ++ spec_sanitized_name (last.getD "") ++ "_"
        ++ quote_plus (fps_location address zip_code)
    ∧ is_wellformed_https_url (build_fps_url first last address zip_code) = true := by
  constructor
  · simp only [build_fps_url, quote_plus_sanitize]
    rfl
  · unfold is_wellformed_https_url
    rw [Bool.and_eq_true]
    constructor
    · rw [build_fps_url_toList]
      exact isPrefixOf_append_self _ _
    · rw [build_fps_url_toList]
      simp only [List.all_append, Bool.and_eq_true, List.all_eq_true]
      refine ⟨by decide, by decide, ?_, by decide, ?_, by decide, ?_⟩
        <;> exact fun c hc => quote_plus_urlChars _ c hc

theorem afterLastUnderscore_append (s : String) :
    afterLastUnderscore (s ++ "_") = "" := by
  unfold afterLastUnderscore
  simp only [String.toList, String.data_append]
  rw [List.reverse_append]
  simp

/-- **C7.**  For every address string for which the trailing
`", City, ST"` / `", City, ST, ZIP"` pattern does not match (i.e.
`to_city_state_slug` returns `none`) and with no postal code supplied,
`build_fps_url` returns (without error — it is total) a URL whose location
segment, the part after the final underscore, is the empty string. -/
theorem claim_C7_no_slug_empty_location (first last : Option String) (addr : String)
    (h : to_city_state_slug addr = none) :
    afterLastUnderscore (build_fps_url first last (some addr) none) = "" := by
  have hloc : fps_location (some addr) none = "" := by
    simp [fps_location, h]
  have hb : build_fps_url first last (some addr) none =
      ("https://www.fastpeoplesearch.com/name/" ++ quote_plus (sanitize_name (first.getD ""))
        ++ "-" ++ quote_plus (sanitize_name (last.getD ""))) ++ "_" := by
    simp only [build_fps_url, hloc]
    apply String.ext
    simp [String.data_append, show (quote_plus "").data = [] from rfl]
  rw [hb]
  exact afterLastUnderscore_append _

/-- Witness for C7 at a concrete input: the address has no trailing
city-state pattern and the built URL ends in an empty location segment. -/
theorem claim_C7_witness :
    to_city_state_slug "123 Main Street" = none ∧
      afterLastUnderscore
        (build_fps_url (some "John") (some "Smith") (some "123 Main Street") none) = "" :=
  ⟨by decide,
    claim_C7_no_slug_empty_location (some "John") (some "Smith") "123 Main Street" (by decide)⟩

/-- **C10.**  For every non-empty, non-whitespace zip string, `build_fps_url`
uses the first five characters of the stripped zip as the URL location
segment — with no digit/well-formedness check — and the address-derived
slug is ignored (the result does not depend on the address); the
address-derived slug is consulted exactly when the zip is absent or
whitespace-only (a blank zip behaves like no zip at all). -/
theorem claim_C10_zip_precedence (first last address : Option String) (z : String)
    (hz : pyStrip z ≠ "") :
    build_fps_url first last address (some z) =
      "https://www.fastpeoplesearch.com/name/" ++ quote_plus (sanitize_name (first.getD ""))
        ++ "-" ++ quote_plus (sanitize_name (last.getD "")) ++ "_"
        ++ quote_plus ⟨(pyStripList z.toList).take 5⟩
    ∧ (∀ address2 : Option String,
        build_fps_url first last address (some z) = build_fps_url first last address2 (some z))
    ∧ (∀ zb : String, pyStrip zb = "" →
        build_fps_url first last address (some zb) = build_fps_url first last address none) := by
  have hloc : fps_location address (some z) = ⟨(pyStripList z.toList).take 5⟩ := by
    simp [fps_location, hz]
  refine ⟨?_, ?_, ?_⟩
  · simp only [build_fps_url, hloc]
  · intro a2
    simp only [build_fps_url, hloc]
    have hloc2 : fps_location a2 (some z) = ⟨(pyStripList z.toList).take 5⟩ := by
      simp [fps_location, hz]
    rw [hloc2]
  · intro zb hzb
    simp only [build_fps_url]
    have : fps_location address (some zb) = fps_location address none := by
      simp [fps_location, hzb]
    rw [this]

/-- Witness for C10 at a concrete input: a zip containing non-digits is
truncated to its first five stripped characters and used verbatim as the
location source. -/
theorem claim_C10_witness :
    pyStrip "  AB#9XY " ≠ "" ∧
      build_fps_url (some "John") (some "Smith") (some "1 Elm St, Springfield, IL")
          (some "  AB#9XY ") =
        "https://www.fastpeoplesearch.com/name/" ++ quote_plus (sanitize_name "John")
          ++ "-" ++ quote_plus (sanitize_name "Smith") ++ "_"
          ++ quote_plus ⟨(pyStripList "  AB#9XY ".toList).take 5⟩ :=
  ⟨by decide,
    (claim_C10_zip_precedence (some "John") (some "Smith")
      (some "1 Elm St, Springfield, IL") "  AB#9XY " (by decide)).1⟩

/-! ## Claim C1 -/

/-- **C1 (amended).**  For every HTML string classified as a challenge by
`is_cloudflare_challenge` and every parse of it, the **edge** scraper's
`is_detail_page_html` returns `false`, no matter how many structural
signals the page contains (the challenge test short-circuits before any
signal is counted).  The chrome scraper's `is_detail_page_html` performs no
such check; see the counterexample. -/
theorem claim_C1_challenge_never_detail (html : String) (doc : List HtmlNode)
    (h : is_cloudflare_challenge html = true) :
    Edge.is_detail_page_html html doc = false := by
  unfold Edge.is_detail_page_html
  split
  · rfl
  · rw [if_pos]
    simp [h]

/-- Witness for C1 at a concrete input: a Cloudflare interstitial is
classified as a challenge and rejected by the edge confirmation check. -/
theorem claim_C1_witness :
    is_cloudflare_challenge "<html><body>Just a moment...</body></html>" = true ∧
      Edge.is_detail_page_html "<html><body>Just a moment...</body></html>"
        [.elem "html" [] [.elem "body" [] [.txt "Just a moment..."]]] = false :=
  ⟨by decide,
    claim_C1_challenge_never_detail _
      [.elem "html" [] [.elem "body" [] [.txt "Just a moment..."]]] (by decide)⟩

/-- **C1 counterexample.**  The chrome scraper's `is_detail_page_html`
accepts this page even though it is classified as a challenge: the claim
as stated fails for the chrome variant. -/
theorem claim_C1_counterexample :
    is_cloudflare_challenge challengeDetailHtml = true ∧
      Chrome.is_detail_page_html challengeDetailHtml challengeDetailDoc = true := by
  constructor
  · decide
  · decide

/-! ## Deduplication lemmas -/

theorem dedupe_aux_not_mem :
    ∀ (l : List String) (seen : List String) (y : String),
      seen.contains y = true → y ∉ dedupe_preserve_order_aux seen l := by
  intro l
  induction l with
  | nil => intro seen y _ hmem; simp [dedupe_preserve_order_aux] at hmem
  | cons x xs ih =>
    intro seen y hy hmem
    simp only [dedupe_preserve_order_aux] at hmem
    split at hmem
    · rename_i hcond
      rw [Bool.and_eq_true] at hcond
      rcases List.mem_cons.1 hmem with rfl | hmem2
      · rw [hy] at hcond
        simp at hcond
      · exact ih (pyStrip x :: seen) y (by simp only [List.contains_cons, hy, Bool.or_true]) hmem2
    · exact ih seen y hy hmem

theorem dedupe_aux_nodup :
    ∀ (l : List String) (seen : List String),
      (dedupe_preserve_order_aux seen l).Nodup := by
  intro l
  induction l with
  | nil => intro seen; simp [dedupe_preserve_order_aux]
  | cons x xs ih =>
    intro seen
    simp only [dedupe_preserve_order_aux]
    split
    · exact List.nodup_cons.2
        ⟨dedupe_aux_not_mem xs (pyStrip x :: seen) (pyStrip x)
          (by simp [List.contains_cons]), ih _⟩
    · exact ih seen

theorem dedupe_nodup (l : List String) : (dedupe_preserve_order l).Nodup :=
  dedupe_aux_nodup l []

theorem dedupe_aux_mem :
    ∀ (l : List String) (seen : List String) (y : String),
      y ∈ dedupe_preserve_order_aux seen l → ∃ x ∈ l, y = pyStrip x := by
  intro l
  induction l with
  | nil => intro seen y hmem; simp [dedupe_preserve_order_aux] at hmem
  | cons x xs ih =>
    intro seen y hmem
    simp only [dedupe_preserve_order_aux] at hmem
    split at hmem
    · rcases List.mem_cons.1 hmem with rfl | hmem2
      · exact ⟨x, List.mem_cons_self x xs, rfl⟩
      · obtain ⟨z, hz, rfl⟩ := ih _ y hmem2
        exact ⟨z, List.mem_cons_of_mem _ hz, rfl⟩
    · obtain ⟨z, hz, rfl⟩ := ih _ y hmem
      exact ⟨z, List.mem_cons_of_mem _ hz, rfl⟩

theorem dedupe_mem (l : List String) (y : String) :
    y ∈ dedupe_preserve_order l → ∃ x ∈ l, y = pyStrip x :=
  dedupe_aux_mem l [] y

/-! ## Claim C2 -/

/-- **C2 (amended).**  For every input page (any HTML string, any parse,
any URL), the **edge** parser's result has at most five phone numbers and
duplicate-free phones, emails, relatives (and associates); the **chrome**
parser also caps phones at five but performs no deduplication — see the
counterexample. -/
theorem claim_C2_extraction_caps (html : String) (doc : List HtmlNode) (url : String) :
    (Edge.parse_detail_page_html_to_data html doc url).phones.length ≤ 5
    ∧ (Edge.parse_detail_page_html_to_data html doc url).phones.Nodup
    ∧ (Edge.parse_detail_page_html_to_data html doc url).emails.Nodup
    ∧ (Edge.parse_detail_page_html_to_data html doc url).relatives.Nodup
    ∧ (Chrome.parse_detail_page_html_to_data html doc url).phones.length ≤ 5 := by
  by_cases h : html = ""
  · simp [Edge.parse_detail_page_html_to_data, Chrome.parse_detail_page_html_to_data,
      h, emptyEnriched]
  · unfold Edge.parse_detail_page_html_to_data Chrome.parse_detail_page_html_to_data
    simp only [if_neg h]
    refine ⟨?_, ?_, ?_, ?_, ?_⟩
    · simp
    · exact (dedupe_nodup _).sublist (List.take_sublist _ _)
    · exact dedupe_nodup _
    · exact dedupe_nodup _
    · simp

/-- **C2 counterexample.**  On a page whose phone anchor is repeated, the
chrome parser returns the same phone twice, so the claim as stated (no
duplicates in the extraction result) fails for the chrome variant. -/
theorem claim_C2_counterexample :
    (Chrome.parse_detail_page_html_to_data dupPhonesHtml dupPhonesDoc
        "https://www.fastpeoplesearch.com/name/x").phones
      = ["(555) 123-4567", "(555) 123-4567"]
    ∧ ¬ (Chrome.parse_detail_page_html_to_data dupPhonesHtml dupPhonesDoc
        "https://www.fastpeoplesearch.com/name/x").phones.Nodup := by
  constructor
  · decide
  · decide

/-! ## Claim C8 -/

theorem filter_digits_format10 (ds : List Char) (hlen : ds.length = 10)
    (hall : ∀ c ∈ ds, isAsciiDigit c = true) :
    (format10 ds).toList.filter isAsciiDigit = ds := by
  rcases ds with _ | ⟨a, _ | ⟨b, _ | ⟨c, _ | ⟨d, _ | ⟨e, _ | ⟨f, _ | ⟨g, _ | ⟨h, _ |
    ⟨i, _ | ⟨j, _ | ⟨k, tl⟩⟩⟩⟩⟩⟩⟩⟩⟩⟩⟩ <;>
    simp_all [format10, List.filter_cons, List.filter_append,
      show isAsciiDigit '(' = false from by decide,
      show isAsciiDigit ')' = false from by decide,
      show isAsciiDigit ' ' = false from by decide,
      show isAsciiDigit '-' = false from by decide]

theorem isCanonicalPhone_format10 (ds : List Char) (hlen : ds.length = 10)
    (hall : ∀ c ∈ ds, isAsciiDigit c = true) :
    isCanonicalPhone (format10 ds) = true := by
  rcases ds with _ | ⟨a, _ | ⟨b, _ | ⟨c, _ | ⟨d, _ | ⟨e, _ | ⟨f, _ | ⟨g, _ | ⟨h, _ |
    ⟨i, _ | ⟨j, _ | ⟨k, tl⟩⟩⟩⟩⟩⟩⟩⟩⟩⟩⟩ <;> simp_all [format10, isCanonicalPhone]

/-- **C8.**  Phone normalization is idempotent on canonical strings: for
every list of ten digits, the canonical rendering `(NNN) NNN-NNNN` is
canonical in the sense of `isCanonicalPhone` and `_normalize_phone` maps
it to itself. -/
theorem claim_C8_normalize_idempotent (ds : List Char) (hlen : ds.length = 10)
    (hall : ∀ c ∈ ds, isAsciiDigit c = true) :
    isCanonicalPhone (format10 ds) = true
    ∧ normalize_phone (format10 ds) = format10 ds := by
  refine ⟨isCanonicalPhone_format10 ds hlen hall, ?_⟩
  unfold normalize_phone
  rw [filter_digits_format10 ds hlen hall]
  simp [hlen]

/-- Witness for C8 at a concrete canonical phone string. -/
theorem claim_C8_witness :
    ("2345678901".toList.length = 10 ∧ format10 "2345678901".toList = "(234) 567-8901")
    ∧ normalize_phone "(234) 567-8901" = "(234) 567-8901" :=
  ⟨⟨by decide, by decide⟩, by
    have h := (claim_C8_normalize_idempotent "2345678901".toList (by decide)
      (by decide)).2
    rwa [show format10 "2345678901".toList = "(234) 567-8901" from by decide] at h⟩

/-! ## Claim C6: phone matches normalize to canonical form -/

theorem pySpace_not_digit {c : Char} (h : isPySpace c = true) : isAsciiDigit c = false := by
  simp only [isPySpace, Bool.or_eq_true, decide_eq_true_eq] at h
  rcases h with ((((rfl | rfl) | rfl) | rfl) | rfl) | rfl <;> decide

theorem phoneSep_not_digit {c : Char} (h : isPhoneSep c = true) : isAsciiDigit c = false := by
  simp only [isPhoneSep, Bool.or_eq_true, decide_eq_true_eq] at h
  rcases h with ((((((hsp | rfl) | rfl) | rfl) | rfl) | rfl) | rfl)
  · exact pySpace_not_digit hsp
  all_goals decide

theorem openParen_not_digit {c : Char} (h : (decide (c = '(') : Bool) = true) :
    isAsciiDigit c = false := by
  simp only [decide_eq_true_eq] at h
  subst h; decide

theorem closeParen_not_digit {c : Char} (h : (decide (c = ')') : Bool) = true) :
    isAsciiDigit c = false := by
  simp only [decide_eq_true_eq] at h
  subst h; decide

theorem consumeDigits_spec :
    ∀ (n : Nat) (cs d r : List Char), consumeDigits n cs = some (d, r) →
      cs = d ++ r ∧ d.length = n ∧ ∀ c ∈ d, isAsciiDigit c = true := by
  intro n
  induction n with
  | zero =>
    intro cs d r h
    simp only [consumeDigits, Option.some.injEq, Prod.mk.injEq] at h
    obtain ⟨rfl, rfl⟩ := h
    simp
  | succ n ih =>
    intro cs d r h
    cases cs with
    | nil => simp [consumeDigits] at h
    | cons c cs2 =>
      simp only [consumeDigits] at h
      split at h
      · rename_i hdig
        cases h2 : consumeDigits n cs2 with
        | none => rw [h2] at h; simp at h
        | some p =>
          obtain ⟨d2, r2⟩ := p
          rw [h2] at h
          simp only [Option.map_some', Option.some.injEq, Prod.mk.injEq] at h
          obtain ⟨rfl, rfl⟩ := h
          obtain ⟨hcs, hlen, hdigs⟩ := ih cs2 d2 _ h2
          subst hcs
          refine ⟨by simp, by simp [hlen], ?_⟩
          intro x hx
          rcases List.mem_cons.1 hx with rfl | hx2
          · exact hdig
          · exact hdigs x hx2
      · simp at h

theorem consumeOpt_spec (p : Char → Bool) (cs : List Char) :
    cs = (consumeOpt p cs).1 ++ (consumeOpt p cs).2
    ∧ ((consumeOpt p cs).1 = [] ∨ ∃ c, (consumeOpt p cs).1 = [c] ∧ p c = true) := by
  cases cs with
  | nil => simp [consumeOpt]
  | cons c cs2 =>
    simp only [consumeOpt]
    split
    · rename_i hp
      exact ⟨rfl, Or.inr ⟨c, rfl, hp⟩⟩
    · exact ⟨rfl, Or.inl rfl⟩

theorem consumeOpt_filter_digit {p : Char → Bool} (cs : List Char)
    (hp : ∀ c, p c = true → isAsciiDigit c = false) :
    ((consumeOpt p cs).1).filter isAsciiDigit = [] := by
  rcases (consumeOpt_spec p cs).2 with h | ⟨c, h, hpc⟩
  · rw [h]; rfl
  · rw [h]
    simp [List.filter_cons, hp c hpc]

theorem phoneCoreAt_digits {cs m r : List Char} (h : phoneCoreAt cs = some (m, r)) :
    (m.filter isAsciiDigit).length = 10
    ∧ (∀ c ∈ m.filter isAsciiDigit, isAsciiDigit c = true) := by
  unfold phoneCoreAt at h
  rcases hp1 : consumeOpt (fun c => c = '(') cs with ⟨o1, cs1⟩
  rw [hp1] at h
  dsimp only at h
  cases h1 : consumeDigits 3 cs1 with
  | none => rw [h1] at h; simp at h
  | some q1 =>
    obtain ⟨d1, cs2⟩ := q1
    rw [h1] at h
    dsimp only at h
    rcases hp2 : consumeOpt (fun c => c = ')') cs2 with ⟨o2, cs3⟩
    rw [hp2] at h
    dsimp only at h
    rcases hp3 : consumeOpt isPhoneSep cs3 with ⟨o3, cs4⟩
    rw [hp3] at h
    dsimp only at h
    cases h2 : consumeDigits 3 cs4 with
    | none => rw [h2] at h; simp at h
    | some q2 =>
      obtain ⟨d2, cs5⟩ := q2
      rw [h2] at h
      dsimp only at h
      rcases hp4 : consumeOpt isPhoneSep cs5 with ⟨o4, cs6⟩
      rw [hp4] at h
      dsimp only at h
      cases h3 : consumeDigits 4 cs6 with
      | none => rw [h3] at h; simp at h
      | some q3 =>
        obtain ⟨d3, cs7⟩ := q3
        rw [h3] at h
        simp only [Option.some.injEq, Prod.mk.injEq] at h
        obtain ⟨rfl, rfl⟩ := h
        obtain ⟨-, hl1, hd1⟩ := consumeDigits_spec 3 _ _ _ h1
        obtain ⟨-, hl2, hd2⟩ := consumeDigits_spec 3 _ _ _ h2
        obtain ⟨-, hl3, hd3⟩ := consumeDigits_spec 4 _ _ _ h3
        have f1 : o1.filter isAsciiDigit = [] := by
          have hf := consumeOpt_filter_digit (p := fun c => c = '(') cs
            (fun c hc => openParen_not_digit hc)
          rw [hp1] at hf; exact hf
        have f2 : o2.filter isAsciiDigit = [] := by
          have hf := consumeOpt_filter_digit (p := fun c => c = ')') cs2
            (fun c hc => closeParen_not_digit hc)
          rw [hp2] at hf; exact hf
        have f3 : o3.filter isAsciiDigit = [] := by
          have hf := consumeOpt_filter_digit (p := isPhoneSep) cs3
            (fun c hc => phoneSep_not_digit hc)
          rw [hp3] at hf; exact hf
        have f4 : o4.filter isAsciiDigit = [] := by
          have hf := consumeOpt_filter_digit (p := isPhoneSep) cs5
            (fun c hc => phoneSep_not_digit hc)
          rw [hp4] at hf; exact hf
        have fd1 : d1.filter isAsciiDigit = d1 := List.filter_eq_self.2 hd1
        have fd2 : d2.filter isAsciiDigit = d2 := List.filter_eq_self.2 hd2
        have fd3 : d3.filter isAsciiDigit = d3 := List.filter_eq_self.2 hd3
        constructor
        · simp only [List.filter_append, f1, f2, f3, f4, fd1, fd2, fd3,
            List.length_append, List.nil_append, List.append_nil, hl1, hl2, hl3,
            List.length_nil]
        · intro c hc
          exact List.of_mem_filter hc

theorem phoneMatchAt_digits {cs m r : List Char} (h : phoneMatchAt cs = some (m, r)) :
    ((m.filter isAsciiDigit).length = 10
      ∨ ((m.filter isAsciiDigit).length = 11
          ∧ (m.filter isAsciiDigit).head? = some '1'))
    ∧ ∀ c ∈ m.filter isAsciiDigit, isAsciiDigit c = true := by
  unfold phoneMatchAt at h
  split at h
  · rename_i rest
    rcases hps : consumeOpt isPhoneSep rest with ⟨ps, rest2⟩
    rw [hps] at h
    dsimp only at h
    cases hco : phoneCoreAt rest2 with
    | some q =>
      obtain ⟨mc, rc⟩ := q
      rw [hco] at h
      simp only [Option.some.injEq, Prod.mk.injEq] at h
      obtain ⟨rfl, rfl⟩ := h
      obtain ⟨hlen, -⟩ := phoneCoreAt_digits hco
      have fs : ps.filter isAsciiDigit = [] := by
        have hf := consumeOpt_filter_digit (p := isPhoneSep) rest
          (fun c hc => phoneSep_not_digit hc)
        rw [hps] at hf; exact hf
      refine ⟨Or.inr ⟨?_, ?_⟩, fun c hc => List.of_mem_filter hc⟩
      · simp only [List.filter_cons, show isAsciiDigit '+' = false from rfl,
          show isAsciiDigit '1' = true from rfl, if_true, Bool.false_eq_true, if_false,
          List.filter_append, fs, List.nil_append, List.length_cons, hlen]
      · simp only [List.filter_cons, show isAsciiDigit '+' = false from rfl,
          show isAsciiDigit '1' = true from rfl, if_true, Bool.false_eq_true, if_false,
          List.head?_cons]
    | none =>
      rw [hco] at h
      obtain ⟨hlen, hmem⟩ := phoneCoreAt_digits h
      exact ⟨Or.inl hlen, hmem⟩
  · obtain ⟨hlen, hmem⟩ := phoneCoreAt_digits h
    exact ⟨Or.inl hlen, hmem⟩

theorem normalize_canonical_of_ten {raw : String}
    (hlen : (raw.toList.filter isAsciiDigit).length = 10) :
    normalize_phone raw = format10 (raw.toList.filter isAsciiDigit)
    ∧ isCanonicalPhone (normalize_phone raw) = true := by
  have hmem : ∀ c ∈ raw.toList.filter isAsciiDigit, isAsciiDigit c = true :=
    fun c hc => List.of_mem_filter hc
  have h1 : ¬((raw.toList.filter isAsciiDigit).length = 11
      ∧ (raw.toList.filter isAsciiDigit).head? = some '1') := by
    intro hc
    rw [hlen] at hc
    exact absurd hc.1 (by decide)
  have heq : normalize_phone raw = format10 (raw.toList.filter isAsciiDigit) := by
    unfold normalize_phone
    dsimp only
    rw [if_neg h1, if_pos hlen]
  exact ⟨heq, by rw [heq]; exact isCanonicalPhone_format10 _ hlen hmem⟩

theorem normalize_canonical_of_eleven {raw : String}
    (hlen : (raw.toList.filter isAsciiDigit).length = 11)
    (hhead : (raw.toList.filter isAsciiDigit).head? = some '1') :
    normalize_phone raw = format10 ((raw.toList.filter isAsciiDigit).drop 1)
    ∧ isCanonicalPhone (normalize_phone raw) = true := by
  have hmem : ∀ c ∈ (raw.toList.filter isAsciiDigit).drop 1, isAsciiDigit c = true :=
    fun c hc => List.of_mem_filter (List.drop_subset _ _ hc)
  have hlen2 : ((raw.toList.filter isAsciiDigit).drop 1).length = 10 := by
    rw [List.length_drop, hlen]
  have h1 : (raw.toList.filter isAsciiDigit).length = 11
      ∧ (raw.toList.filter isAsciiDigit).head? = some '1' := ⟨hlen, hhead⟩
  have heq : normalize_phone raw = format10 ((raw.toList.filter isAsciiDigit).drop 1) := by
    unfold normalize_phone
    dsimp only
    rw [if_pos h1, if_pos hlen2]
  exact ⟨heq, by rw [heq]; exact isCanonicalPhone_format10 _ hlen2 hmem⟩

theorem normalize_canonical_of_match {cs m r : List Char}
    (h : phoneMatchAt cs = some (m, r)) :
    isCanonicalPhone (normalize_phone (⟨m⟩ : String)) = true := by
  obtain ⟨hlen, -⟩ := phoneMatchAt_digits h
  have htl : (⟨m⟩ : String).toList = m := rfl
  rcases hlen with h10 | ⟨h11, hhd⟩
  · exact (normalize_canonical_of_ten (by rw [htl]; exact h10)).2
  · exact (normalize_canonical_of_eleven (by rw [htl]; exact h11)
      (by rw [htl]; exact hhd)).2

theorem phoneFindAllGo_canonical :
    ∀ (fuel : Nat) (cs : List Char) (p : String),
      p ∈ phoneFindAllGo fuel cs → isCanonicalPhone (normalize_phone p) = true := by
  intro fuel
  induction fuel with
  | zero => intro cs p hp; simp [phoneFindAllGo] at hp
  | succ fuel ih =>
    intro cs p hp
    cases cs with
    | nil => simp [phoneFindAllGo] at hp
    | cons c rest =>
      simp only [phoneFindAllGo] at hp
      cases hm : phoneMatchAt (c :: rest) with
      | some q =>
        obtain ⟨m, r⟩ := q
        rw [hm] at hp
        rcases List.mem_cons.1 hp with rfl | hp2
        · exact normalize_canonical_of_match hm
        · exact ih r p hp2
      | none =>
        rw [hm] at hp
        exact ih rest p hp

theorem phoneFindAll_canonical (s : String) (p : String) (hp : p ∈ phoneFindAll s) :
    isCanonicalPhone (normalize_phone p) = true :=
  phoneFindAllGo_canonical _ _ p hp

theorem getLast?_of_canonical (l : List Char) (a b c d e f g h i j : Char)
    (hl : l = '(' :: a :: b :: c :: ')' :: ' ' :: d :: e :: f :: '-' :: g :: h :: i :: [j]) :
    l.getLast? = some j := by
  subst hl
  simp [List.getLast?_cons_cons]

theorem pyStripList_eq_self (l : List Char)
    (h1 : ∀ c, l.head? = some c → isPySpace c = false)
    (h2 : ∀ c, l.getLast? = some c → isPySpace c = false) :
    pyStripList l = l := by
  unfold pyStripList
  have hd : l.dropWhile isPySpace = l := by
    cases l with
    | nil => rfl
    | cons c cs => simp [List.dropWhile_cons, h1 c rfl]
  rw [hd]
  have hr : l.reverse.dropWhile isPySpace = l.reverse := by
    cases hrv : l.reverse with
    | nil => rfl
    | cons c cs =>
      have : l.getLast? = some c := by
        rw [← List.head?_reverse, hrv]; rfl
      simp [List.dropWhile_cons, h2 c this]
  rw [hr, List.reverse_reverse]

theorem digit_not_pySpace {c : Char} (h : isAsciiDigit c = true) : isPySpace c = false := by
  cases hs : isPySpace c
  · rfl
  · rw [pySpace_not_digit hs] at h
    exact absurd h (by simp)

theorem pyStrip_of_canonical {s : String} (h : isCanonicalPhone s = true) :
    pyStrip s = s := by
  unfold isCanonicalPhone at h
  split at h
  · rename_i a b c d e f g hh i j heq
    have hts : pyStripList s.toList = s.toList := by
      apply pyStripList_eq_self
      · intro x hx
        rw [heq] at hx
        simp only [List.head?_cons, Option.some.injEq] at hx
        subst hx; decide
      · intro x hx
        rw [getLast?_of_canonical s.toList a b c d e f g hh i j heq] at hx
        obtain rfl := Option.some.inj hx
        simp only [List.all_cons, Bool.and_eq_true, List.all_nil] at h
        exact digit_not_pySpace h.2.2.2.2.2.2.2.2.2.1
    unfold pyStrip
    rw [hts]
    rfl
  · exact absurd h (by simp)

theorem edge_parse_phones_canonical (html : String) (doc : List HtmlNode) (url : String) :
    ∀ p ∈ (Edge.parse_detail_page_html_to_data html doc url).phones,
      isCanonicalPhone p = true := by
  intro p hp
  unfold Edge.parse_detail_page_html_to_data at hp
  by_cases h : html = ""
  · rw [if_pos h] at hp
    simp [emptyEnriched] at hp
  · rw [if_neg h] at hp
    simp only at hp
    have hp2 := List.take_subset 5 _ hp
    obtain ⟨x, hx, rfl⟩ := dedupe_mem _ _ hp2
    obtain ⟨q, hq, rfl⟩ := List.mem_map.1 hx
    have hcanon : isCanonicalPhone (normalize_phone q) = true := by
      split at hq
      · exact phoneFindAll_canonical _ q hq
      · obtain ⟨a, -, hqa⟩ := List.mem_flatMap.1 hq
        exact phoneFindAll_canonical _ q hqa
    rw [pyStrip_of_canonical hcanon]
    exact hcanon

/-- **C6.**  Phone normalization strips all non-digit characters, removes
a leading country digit `1` when eleven digits remain, renders exactly
ten-digit results in the canonical form `(NNN) NNN-NNNN`, and the edge
extraction pipeline never emits a malformed entry: every phone in an
extraction result is canonical (candidates enter only through
`PHONE_RE.findall`, whose matches always reduce to ten digits). -/
theorem claim_C6_phone_normalization :
    (∀ raw : String, (raw.toList.filter isAsciiDigit).length = 10 →
      normalize_phone raw = format10 (raw.toList.filter isAsciiDigit)
      ∧ isCanonicalPhone (normalize_phone raw) = true)
    ∧ (∀ raw : String, (raw.toList.filter isAsciiDigit).length = 11 →
        (raw.toList.filter isAsciiDigit).head? = some '1' →
        normalize_phone raw = format10 ((raw.toList.filter isAsciiDigit).drop 1)
        ∧ isCanonicalPhone (normalize_phone raw) = true)
    ∧ (∀ (html : String) (doc : List HtmlNode) (url : String),
        ∀ p ∈ (Edge.parse_detail_page_html_to_data html doc url).phones,
          isCanonicalPhone p = true) :=
  ⟨fun _ h => normalize_canonical_of_ten h,
   fun _ h hh => normalize_canonical_of_eleven h hh,
   edge_parse_phones_canonical⟩

/-- Witness for C6 at concrete inputs: an 11-digit raw string with country
code loses its leading `1`, and a 10-digit raw string is rendered
canonically. -/
theorem claim_C6_witness :
    normalize_phone "+1 555 123 4567" = "(555) 123-4567"
    ∧ normalize_phone "555.123.4567" = "(555) 123-4567" := by
  constructor
  · have h := (claim_C6_phone_normalization.2.1 "+1 555 123 4567" (by decide) (by decide)).1
    rw [h]
    decide
  · have h := (claim_C6_phone_normalization.1 "555.123.4567" (by decide)).1
    rw [h]
    decide

/-! ## Claim C3 -/

theorem gateStep_counter_ge (c : Nat) (e : RecEvent) : c ≤ (gateStep c e).1 := by
  cases e with
  | invalid => exact Nat.le_refl c
  | autoRaise => exact Nat.le_refl c
  | auto g f =>
    simp only [gateStep]
    split <;> omega

theorem counterAfter_ge (c0 : Nat) (es : List RecEvent) : c0 ≤ counterAfter c0 es := by
  induction es generalizing c0 with
  | nil => exact Nat.le_refl c0
  | cons e es ih =>
    exact Nat.le_trans (gateStep_counter_ge c0 e) (ih (gateStep c0 e).1)

theorem counterAfter_append (c0 : Nat) (pre post : List RecEvent) :
    counterAfter c0 (pre ++ post) = counterAfter (counterAfter c0 pre) post := by
  unfold counterAfter
  exact List.foldl_append _ _ pre post

/-- **C3 (amended).**  The per-session gate counter never decreases across
records; once it has reached `MAX_GATES_BEFORE_MANUAL` it stays there or
above for the rest of the run; and from then on every record whose auto
phase completes normally is routed through the manual fallback path, even
when it sees no further gate and sets no `need_manual` flag.  (Records
skipped for an invalid name and records aborted by a caught record-level
exception bypass the manual path — see the counterexample.) -/
theorem claim_C3_gate_monotone_manual :
    (∀ (c0 : Nat) (pre post : List RecEvent),
      counterAfter c0 pre ≤ counterAfter c0 (pre ++ post))
    ∧ (∀ (c0 : Nat) (pre post : List RecEvent),
        MAX_GATES_BEFORE_MANUAL ≤ counterAfter c0 pre →
        MAX_GATES_BEFORE_MANUAL ≤ counterAfter c0 (pre ++ post))
    ∧ (∀ (c0 : Nat) (pre : List RecEvent) (g f : Bool),
        MAX_GATES_BEFORE_MANUAL ≤ counterAfter c0 pre →
        (gateStep (counterAfter c0 pre) (RecEvent.auto g f)).2 = true) := by
  refine ⟨?_, ?_, ?_⟩
  · intro c0 pre post
    rw [counterAfter_append]
    exact counterAfter_ge _ post
  · intro c0 pre post h
    rw [counterAfter_append]
    exact Nat.le_trans h (counterAfter_ge _ post)
  · intro c0 pre g f h
    simp only [gateStep]
    have : MAX_GATES_BEFORE_MANUAL ≤ counterAfter c0 pre + (if g then 1 else 0) := by
      split <;> omega
    simp [this]

/-- Witness for C3: after three gate-seeing records the counter is at the
threshold, and a fourth record that completes its auto phase with no gate
and no `need_manual` flag is still routed through manual fallback. -/
theorem claim_C3_witness :
    MAX_GATES_BEFORE_MANUAL ≤ counterAfter 0
      [RecEvent.auto true false, RecEvent.auto true false, RecEvent.auto true false]
    ∧ (gateStep (counterAfter 0
        [RecEvent.auto true false, RecEvent.auto true false, RecEvent.auto true false])
        (RecEvent.auto false false)).2 = true :=
  ⟨by decide,
    claim_C3_gate_monotone_manual.2.2 0
      [RecEvent.auto true false, RecEvent.auto true false, RecEvent.auto true false]
      false false (by decide)⟩

/-- **C3 counterexample.**  In a run whose first three records each see a
gate, the counter reaches `MAX_GATES_BEFORE_MANUAL = 3` at the third
record — but a fourth record aborted by a record-level exception (caught
by the loop, e.g. a navigation timeout) is skipped without being routed
through the manual fallback path, so "every subsequent record in the run
is routed through the manual fallback path" fails as stated. -/
theorem claim_C3_counterexample :
    gateRun 0 [RecEvent.auto true false, RecEvent.auto true false,
        RecEvent.auto true false, RecEvent.autoRaise]
      = [(1, false), (2, false), (3, true), (3, false)]
    ∧ MAX_GATES_BEFORE_MANUAL ≤ 3 := by
  constructor
  · rfl
  · decide

/-! ## Claim C9 -/

theorem traceOf_prefix_durable {α : Type} :
    ∀ (ts : List α) (s : FsState α) (k : Nat),
      s.durable ≠ FileData.incomplete →
      (runFs s ((traceOf ts).take k)).durable ≠ FileData.incomplete
      ∧ ((runFs s ((traceOf ts).take k)).durable = s.durable
         ∨ ∃ t ∈ ts, (runFs s ((traceOf ts).take k)).durable = FileData.complete t) := by
  intro ts
  induction ts with
  | nil =>
    intro s k hs
    simp only [traceOf, List.flatMap_nil, List.take_nil, runFs, List.foldl_nil]
    exact ⟨hs, Or.inl trivial⟩
  | cons t ts ih =>
    intro s k hs
    have htr : traceOf (t :: ts) =
        FsEvent.beginWrite :: FsEvent.endWrite t :: FsEvent.replace :: traceOf ts := rfl
    rw [htr]
    match k with
    | 0 =>
      simp only [List.take_zero, runFs, List.foldl_nil]
      exact ⟨hs, Or.inl trivial⟩
    | 1 =>
      simp only [List.take_succ_cons, List.take_zero, runFs, List.foldl_cons,
        List.foldl_nil, fsStep]
      exact ⟨hs, Or.inl trivial⟩
    | 2 =>
      simp only [List.take_succ_cons, List.take_zero, runFs, List.foldl_cons,
        List.foldl_nil, fsStep]
      exact ⟨hs, Or.inl trivial⟩
    | (m + 3) =>
      simp only [List.take_succ_cons, runFs, List.foldl_cons, fsStep]
      have hs3 : (FsState.mk FileData.absent (FileData.complete t) : FsState α).durable
          ≠ FileData.incomplete := by simp
      obtain ⟨h1, h2⟩ := ih (FsState.mk FileData.absent (FileData.complete t)) m hs3
      refine ⟨h1, ?_⟩
      rcases h2 with h2 | ⟨u, hu, h2⟩
      · exact Or.inr ⟨t, List.mem_cons_self t ts, h2⟩
      · exact Or.inr ⟨u, List.mem_cons_of_mem _ hu, h2⟩

theorem traceOf_full_durable {α : Type} :
    ∀ (ts : List α) (s : FsState α) (u : α), ts.getLast? = some u →
      (runFs s (traceOf ts)).durable = FileData.complete u := by
  intro ts
  induction ts with
  | nil => intro s u h; simp at h
  | cons t ts ih =>
    intro s u h
    have htr : traceOf (t :: ts) =
        FsEvent.beginWrite :: FsEvent.endWrite t :: FsEvent.replace :: traceOf ts := rfl
    rw [htr]
    simp only [runFs, List.foldl_cons, fsStep]
    cases ts with
    | nil =>
      simp only [List.getLast?_singleton, Option.some.injEq] at h
      subst h
      simp [traceOf, runFs]
    | cons t2 ts2 =>
      rw [List.getLast?_cons_cons] at h
      exact ih _ u h

theorem mem_checkpointTables {α : Type} {tables : Nat → α} {n : Nat} {t : α}
    (h : t ∈ checkpointTables tables n) :
    ∃ m, t = tables m
      ∧ ((m % RESULTS_SAVE_EVERY = 0 ∧ 0 < m ∧ m ≤ n) ∨ m = n) := by
  unfold checkpointTables at h
  rcases List.mem_append.1 h with h | h
  · obtain ⟨idx, hidx, hif⟩ := List.mem_filterMap.1 h
    rw [List.mem_range] at hidx
    split at hif
    · rename_i hmod
      obtain rfl := Option.some.inj hif
      exact ⟨idx + 1, rfl, Or.inl ⟨hmod, Nat.succ_pos idx, hidx⟩⟩
    · exact absurd hif (by simp)
  · rw [List.mem_singleton] at h
    exact ⟨n, h, Or.inr rfl⟩

/-- **C9.**  In a run of `n` records in which no record-level exception
interrupts an iteration, every periodic and final checkpoint writes the
whole table to the temporary file and then atomically replaces the
durable copy, so after any crash point (any prefix of the file-system
event trace) the durable file is never partially written: it is either
the pre-run durable content or the complete table of some checkpoint,
where the periodic checkpoints are exactly the multiples of
`RESULTS_SAVE_EVERY = 10`; and the uninterrupted run ends with the
durable file holding the complete final table. -/
theorem claim_C9_atomic_checkpoints {α : Type} (tables : Nat → α) (n : Nat)
    (s : FsState α) (k : Nat) (hs : s.durable ≠ FileData.incomplete) :
    (runFs s ((checkpointTrace tables n).take k)).durable ≠ FileData.incomplete
    ∧ ((runFs s ((checkpointTrace tables n).take k)).durable = s.durable
       ∨ ∃ m, (runFs s ((checkpointTrace tables n).take k)).durable
            = FileData.complete (tables m)
          ∧ ((m % RESULTS_SAVE_EVERY = 0 ∧ 0 < m ∧ m ≤ n) ∨ m = n))
    ∧ (runFs s (checkpointTrace tables n)).durable = FileData.complete (tables n) := by
  obtain ⟨h1, h2⟩ := traceOf_prefix_durable (checkpointTables tables n) s k hs
  refine ⟨h1, ?_, ?_⟩
  · rcases h2 with h2 | ⟨t, ht, h2⟩
    · exact Or.inl h2
    · obtain ⟨m, rfl, hm⟩ := mem_checkpointTables ht
      exact Or.inr ⟨m, h2, hm⟩
  · apply traceOf_full_durable
    unfold checkpointTables
    rw [List.getLast?_append]
    rfl

/-- Witness for C9: a concrete three-record run over `Nat` tables, crash
after two events — the durable file still holds the old complete table. -/
theorem claim_C9_witness :
    ((FsState.mk FileData.absent (FileData.complete 0) : FsState Nat).durable
        ≠ FileData.incomplete)
    ∧ (runFs (FsState.mk FileData.absent (FileData.complete 0) : FsState Nat)
        ((checkpointTrace (fun i => i) 3).take 2)).durable ≠ FileData.incomplete :=
  ⟨by decide,
    (claim_C9_atomic_checkpoints (fun i => i) 3
      (FsState.mk FileData.absent (FileData.complete 0)) 2 (by decide)).1⟩

/-! ## Claim C5 -/

theorem sortDescBy_head_spec {α : Type} (key : α → Nat) :
    ∀ l : List α, l ≠ [] →
      ∃ (m : Nat) (hm : m < l.length),
        (sortDescBy key l).head? = some l[m]
        ∧ (∀ (k : Nat) (hk : k < l.length), key l[k] ≤ key l[m])
        ∧ (∀ (k : Nat) (hk : k < l.length), k < m → key l[k] < key l[m]) := by
  intro l
  induction l with
  | nil => intro h; exact absurd rfl h
  | cons x xs ih =>
    intro hne0
    cases hxs : xs with
    | nil =>
      subst hxs
      refine ⟨0, by simp, rfl, ?_, ?_⟩
      · intro k hk
        have hk1 : k < 1 := by simpa using hk
        interval_cases k
        exact Nat.le_refl _
      · intro k hk hk0
        omega
    | cons y ys =>
      subst hxs
      obtain ⟨m2, hm2, hhead2, hmax2, hstrict2⟩ := ih (by simp)
      cases hsort : sortDescBy key (y :: ys) with
      | nil => rw [hsort] at hhead2; simp at hhead2
      | cons z t =>
        rw [hsort] at hhead2
        simp only [List.head?_cons, Option.some.injEq] at hhead2
        by_cases hlt : key x < key z
        · refine ⟨m2 + 1, Nat.succ_lt_succ hm2, ?_, ?_, ?_⟩
          · show (insertDescBy key x (sortDescBy key (y :: ys))).head? = _
            rw [hsort]
            simp only [insertDescBy, if_pos hlt, List.head?_cons, Option.some.injEq,
              List.getElem_cons_succ]
            exact hhead2
          · intro k hk
            cases k with
            | zero =>
              simp only [List.getElem_cons_zero, List.getElem_cons_succ]
              rw [hhead2] at hlt
              exact Nat.le_of_lt hlt
            | succ k2 =>
              simp only [List.getElem_cons_succ]
              exact hmax2 k2 (Nat.lt_of_succ_lt_succ hk)
          · intro k hk hkm
            cases k with
            | zero =>
              simp only [List.getElem_cons_zero, List.getElem_cons_succ]
              rw [hhead2] at hlt
              exact hlt
            | succ k2 =>
              simp only [List.getElem_cons_succ]
              exact hstrict2 k2 (Nat.lt_of_succ_lt_succ hk) (Nat.lt_of_succ_lt_succ hkm)
        · refine ⟨0, by simp, ?_, ?_, ?_⟩
          · show (insertDescBy key x (sortDescBy key (y :: ys))).head? = _
            rw [hsort]
            simp only [insertDescBy, if_neg hlt, List.head?_cons,
              List.getElem_cons_zero]
          · intro k hk
            cases k with
            | zero => exact Nat.le_refl _
            | succ k2 =>
              simp only [List.getElem_cons_succ, List.getElem_cons_zero]
              have h1 := hmax2 k2 (Nat.lt_of_succ_lt_succ hk)
              rw [hhead2] at hlt
              omega
          · intro k hk hkm
            omega

/-- **C5.**  For every candidate list, when two candidates `i < j` share
the same maximal name-match score, the selected candidate is the one
appearing first in document order: the selection returns the candidate at
the least index achieving the maximal score (the stable descending sort
puts the first maximal-score candidate at the head). -/
theorem claim_C5_tie_break (first last : String) (cands : List Anchor)
    (i j : Nat) (hi : i < cands.length) (hj : j < cands.length) (_hij : i < j)
    (hmax : ∀ (k : Nat) (hk : k < cands.length),
      score_anchor_for_name (normalize_name first) (normalize_name last) cands[k]
        ≤ score_anchor_for_name (normalize_name first) (normalize_name last) cands[i])
    (heq : score_anchor_for_name (normalize_name first) (normalize_name last) cands[i]
        = score_anchor_for_name (normalize_name first) (normalize_name last) cands[j]) :
    ∃ (m : Nat) (hm : m < cands.length),
      open_best_choice first last cands = some cands[m]
      ∧ score_anchor_for_name (normalize_name first) (normalize_name last) cands[m]
          = score_anchor_for_name (normalize_name first) (normalize_name last) cands[i]
      ∧ ∀ (k : Nat) (hk : k < cands.length), k < m →
          score_anchor_for_name (normalize_name first) (normalize_name last) cands[k]
            < score_anchor_for_name (normalize_name first) (normalize_name last) cands[m] := by
  cases cands with
  | nil => exact absurd hi (by simp)
  | cons c cs =>
    set score := score_anchor_for_name (normalize_name first) (normalize_name last)
      with hscore
    have hne : (c :: cs).map (fun a => (a, score a)) ≠ [] := by simp
    obtain ⟨m, hmS, hhead, hmaxS, hstrictS⟩ :=
      sortDescBy_head_spec (fun p => p.2) ((c :: cs).map (fun a => (a, score a))) hne
    have hm : m < (c :: cs).length := by rw [List.length_map] at hmS; exact hmS
    refine ⟨m, hm, ?_, ?_, ?_⟩
    · show (((sortDescBy (fun p => p.2)
        ((c :: cs).map (fun a => (a, score a)))).head?).map Prod.fst) = _
      rw [hhead]
      simp only [Option.map_some', List.getElem_map]
    · apply Nat.le_antisymm
      · exact hmax m hm
      · have h1 := hmaxS i (by rw [List.length_map]; exact hi)
        simp only [List.getElem_map] at h1
        exact h1
    · intro k hk hkm
      have h1 := hstrictS k (by rw [List.length_map]; exact hk) hkm
      simp only [List.getElem_map] at h1
      exact h1

/-- Witness for C5: among three concrete candidates whose first two tie at
the maximal score 2, the first one is selected. -/
theorem claim_C5_witness :
    ∃ (m : Nat) (hm : m < tieCands.length),
      open_best_choice "John" "Smith" tieCands = some tieCands[m]
      ∧ score_anchor_for_name (normalize_name "John") (normalize_name "Smith") tieCands[m]
          = score_anchor_for_name (normalize_name "John") (normalize_name "Smith")
              (tieCands.get ⟨0, by decide⟩)
      ∧ ∀ (k : Nat) (hk : k < tieCands.length), k < m →
          score_anchor_for_name (normalize_name "John") (normalize_name "Smith") tieCands[k]
            < score_anchor_for_name (normalize_name "John") (normalize_name "Smith")
                tieCands[m] :=
  claim_C5_tie_break "John" "Smith" tieCands 0 1 (by decide) (by decide) (by decide)
    (by decide) (by decide)
